import Mathlib

/-!
Verification of the schema compilation engine of
`class-validator-to-open-api` (the AST-based `SchemaTransformer` in
`src/index.ts`, lines 428-969 of the concatenated file), against the
natural-language specification.

The engine consumes an already-extracted model (class name, field list
with declared-type strings and decorator lists) and produces an OpenAPI
schema object.  The extraction layer (TypeScript AST walking,
`extractProperties` / `extractDecorators` / `getPropertyType`) is the
spec's external collaborator and is represented here by the input data
(`ClassDecl`, `PropertyInfo`, `DecoratorInfo`); the schema compilation
pipeline (`transformByName`, `transformClass`, `generateSchema`,
`mapTypeToSchema`, `applyDecorators`) is embedded function by function.

JavaScript objects holding schema fragments are modelled by the
recursive type `Sch`; object-key assignment (`obj[k] = v`, replacing an
existing key in place or appending a new one, which is also the
semantics of `Map.set`) is `assocSet`, and key lookup is `assocGet`.
The mutable `classCache` instance field is threaded explicitly as a
`Cache` value.  A thrown-and-propagated JavaScript `Error` is `TRes.err`
(carrying the cache state at throw time, since mutations made before a
throw persist); `TRes.diverge` is exhaustion of the artificial recursion
fuel, i.e. the computation exceeds any given recursion depth.
-/

/-- Shape functor for JavaScript schema objects: `type`, optional
`format` and numeric constraint fields, optional `items`, nested
`properties` (an ordered key/value object) and `required` (an array of
field names).  `SchemaType` in `src/types.ts` is an open record; the
fields listed here are exactly the ones the engine reads or writes. -/
structure SchF (α : Type) where
  type : String
  format : Option String := none
  minimum : Option Int := none
  maximum : Option Int := none
  minLength : Option Int := none
  maxLength : Option Int := none
  minItems : Option Int := none
  maxItems : Option Int := none
  items : Option α := none
  properties : List (String × α) := []
  required : List String := []

/-- A JavaScript schema value (`SchemaType` / property schema): the
fixed point of `SchF`. -/
inductive Sch where
  | mk : SchF Sch → Sch

/-- Unfold a schema value to its field record. -/
def Sch.f : Sch → SchF Sch
  | .mk d => d

/-- Result of `transformByName` / `transform`: the `{name, schema}` pair. -/
structure TResult where
  name : String
  schema : Sch

/-- The `classCache` map, keyed by class name. -/
abbrev Cache := List (String × TResult)

/-- Outcome of a call into the engine: normal return plus the cache
state, a propagating thrown `Error` plus the cache state at the throw,
or fuel exhaustion (the call recurses past the given depth bound). -/
inductive TRes (α : Type) where
  | ok (a : α) (cache : Cache)
  | err (cache : Cache)
  | diverge

/-- A decorator extracted from a property declaration
(`DecoratorInfo`).  Argument literals are modelled as integers: the
decorators interpreted by the engine (`MinLength`, `Length`, `Min`,
`Max`, `ArrayMinSize`, `ArrayMaxSize`) consume numeric literals only. -/
structure DecoratorInfo where
  name : String
  arguments : List Int

/-- A field extracted from a class declaration (`PropertyInfo`): name,
declared-type string (as produced by `getPropertyType`), decorators. -/
structure PropertyInfo where
  name : String
  type : String
  decorators : List DecoratorInfo

/-- A class declaration as found in the program's source files. -/
structure ClassDecl where
  name : String
  props : List PropertyInfo

/-- Lower-casing as used by `type.toLowerCase()` in the source.
Implemented over the character list so that it evaluates inside the
kernel (core `String.toLower` is compiled code that does not reduce). -/
def strToLower (s : String) : String :=
  String.mk (s.data.map Char.toLower)

/-- `type.endsWith("[]")` from the source, over character lists for the
same reason as `strToLower`. -/
def strEndsWith (s suffix : String) : Bool :=
  suffix.data.isSuffixOf s.data

/-- `type.slice(0, -2)` from the source: drop the trailing `"[]"`. -/
def strDropRight2 (s : String) : String :=
  String.mk s.data.dropLast.dropLast

/-- JavaScript object-key / `Map.set` assignment on an ordered
association list: replace the first binding of the key in place, or
append the binding when the key is absent. -/
def assocSet {α : Type} : List (String × α) → String → α → List (String × α)
  | [], k, v => [(k, v)]
  | (k', v') :: rest, k, v =>
    if k' = k then (k, v) :: rest else (k', v') :: assocSet rest k v

/-- JavaScript object-key / `Map.get` lookup: first binding wins. -/
def assocGet {α : Type} : List (String × α) → String → Option α
  | [], _ => none
  | (k', v') :: rest, k => if k' = k then some v' else assocGet rest k

/-- Structure of one `jsPrimitives` entry of the fixtures module:
the runtime type name (`type`), the OpenAPI type it maps to (`value`)
and an optional OpenAPI format. -/
structure JsPrimitiveSpec where
  ptype : String
  value : String
  pformat : Option String := none

/-- Modelled from the spec: the current `constants.jsPrimitives` table of
the fixtures module consumed by the AST-based transformer is not present
under `src` — the retained `fixtures.ts` belongs to the older
reflection-based variant (it maps `Date` to value `"date"` with no
format), which contradicts this transformer's own unit tests
(`mapTypeToSchema('date')` must yield `{type: "string", format:
"date-time"}`).  Values follow spec §4.1 and the tests.  This entry:
`String`. -/
def jpString : JsPrimitiveSpec := { ptype := "String", value := "string" }

/-- Modelled from the spec: see `jpString`.  This entry: `Number`. -/
def jpNumber : JsPrimitiveSpec := { ptype := "Number", value := "number" }

/-- Modelled from the spec: see `jpString`.  This entry: `Boolean`. -/
def jpBoolean : JsPrimitiveSpec := { ptype := "Boolean", value := "boolean" }

/-- Modelled from the spec: see `jpString`.  This entry: `Date`,
mapping to `{type: "string", format: "date-time"}` per spec §4.1. -/
def jpDate : JsPrimitiveSpec :=
  { ptype := "Date", value := "string", pformat := some "date-time" }

/-- Modelled from the spec: see `jpString`.  This entry: `Object`. -/
def jpObject : JsPrimitiveSpec := { ptype := "Object", value := "object" }

/-- Modelled from the spec: see `jpString`.  This entry: `Array`. -/
def jpArray : JsPrimitiveSpec := { ptype := "Array", value := "array" }

/-- Modelled from the spec: see `jpString`.  This entry: `Buffer`,
mapping to the binary-family schema `{type: "string", format:
"binary"}` per spec §4.1. -/
def jpBuffer : JsPrimitiveSpec :=
  { ptype := "Buffer", value := "string", pformat := some "binary" }

/-- Modelled from the spec: see `jpString`.  This entry: `Uint8Array`,
the second binary-family entry. -/
def jpUint8Array : JsPrimitiveSpec :=
  { ptype := "Uint8Array", value := "string", pformat := some "binary" }

/-- Structure of one `constants.validatorDecorators` entry: the matched
decorator key plus the OpenAPI `type` / `format` it writes. -/
structure ValidatorDecoratorSpec where
  name : String
  vtype : String := ""
  vformat : String := ""

/-- Modelled from the spec: the current `constants.validatorDecorators`
table is likewise absent from `src` — the retained historical
`fixtures.ts` uses lowercase metadata keys (`"isString"`, no `IsArray`
entry at all), under which the AST transformer, whose
`extractDecorators` produces capitalized decorator identifiers, would
match nothing and would crash reading `IsArray.name`; the transformer's
unit tests fix the capitalized keys and the `type`/`format` values used
here, which agree with spec §4.2.  This entry: `IsString`. -/
def vdIsString : ValidatorDecoratorSpec :=
  { name := "IsString", vtype := "string", vformat := "string" }

/-- Modelled from the spec: see `vdIsString`.  This entry: `IsInt`. -/
def vdIsInt : ValidatorDecoratorSpec :=
  { name := "IsInt", vtype := "integer", vformat := "int32" }

/-- Modelled from the spec: see `vdIsString`.  This entry: `IsNumber`. -/
def vdIsNumber : ValidatorDecoratorSpec :=
  { name := "IsNumber", vtype := "number", vformat := "double" }

/-- Modelled from the spec: see `vdIsString`.  This entry: `IsBoolean`. -/
def vdIsBoolean : ValidatorDecoratorSpec :=
  { name := "IsBoolean", vtype := "boolean" }

/-- Modelled from the spec: see `vdIsString`.  This entry: `IsEmail`. -/
def vdIsEmail : ValidatorDecoratorSpec :=
  { name := "IsEmail", vtype := "string", vformat := "email" }

/-- Modelled from the spec: see `vdIsString`.  This entry: `IsDate`,
writing `type = "string"`, `format = "date-time"` per spec §4.2. -/
def vdIsDate : ValidatorDecoratorSpec :=
  { name := "IsDate", vtype := "string", vformat := "date-time" }

/-- Modelled from the spec: see `vdIsString`.  This entry: `IsNotEmpty`. -/
def vdIsNotEmpty : ValidatorDecoratorSpec := { name := "IsNotEmpty" }

/-- Modelled from the spec: see `vdIsString`.  This entry: `MinLength`. -/
def vdMinLength : ValidatorDecoratorSpec := { name := "MinLength" }

/-- Modelled from the spec: see `vdIsString`.  This entry: `MaxLength`. -/
def vdMaxLength : ValidatorDecoratorSpec := { name := "MaxLength" }

/-- Modelled from the spec: see `vdIsString`.  This entry: `Length`. -/
def vdLength : ValidatorDecoratorSpec := { name := "Length" }

/-- Modelled from the spec: see `vdIsString`.  This entry: `Min`. -/
def vdMin : ValidatorDecoratorSpec := { name := "Min" }

/-- Modelled from the spec: see `vdIsString`.  This entry: `Max`. -/
def vdMax : ValidatorDecoratorSpec := { name := "Max" }

/-- Modelled from the spec: see `vdIsString`.  This entry: `IsPositive`. -/
def vdIsPositive : ValidatorDecoratorSpec := { name := "IsPositive" }

/-- Modelled from the spec: see `vdIsString`.  This entry: `IsArray`. -/
def vdIsArray : ValidatorDecoratorSpec := { name := "IsArray" }

/-- Modelled from the spec: see `vdIsString`.  This entry:
`ArrayNotEmpty`. -/
def vdArrayNotEmpty : ValidatorDecoratorSpec := { name := "ArrayNotEmpty" }

/-- Modelled from the spec: see `vdIsString`.  This entry:
`ArrayMinSize`. -/
def vdArrayMinSize : ValidatorDecoratorSpec := { name := "ArrayMinSize" }

/-- Modelled from the spec: see `vdIsString`.  This entry:
`ArrayMaxSize`. -/
def vdArrayMaxSize : ValidatorDecoratorSpec := { name := "ArrayMaxSize" }

/-- Insertion `schema.properties[p] = v` of a (possibly fresh)
property binding, used by the field loop of `generateSchema`. -/
def withProp (s : Sch) (p : String) (v : Sch) : Sch :=
  Sch.mk { s.f with properties := assocSet s.f.properties p v }

/-- Update the property bound to `p` in the schema object's
`properties` map, as the JavaScript statement
`schema.properties[p].field = v` does; when the key is absent the
update is a no-op (in JavaScript the statement would throw a
`TypeError`; at every engine call site the key has been inserted
first, so the branch is unreachable there). -/
def updProp (s : Sch) (p : String) (g : SchF Sch → SchF Sch) : Sch :=
  match assocGet s.f.properties p with
  | none => s
  | some x => Sch.mk { s.f with properties := assocSet s.f.properties p (Sch.mk (g x.f)) }

/-- Update the `items` object of the property bound to `p`, guarded
exactly like the source's `else if (schema.properties[p].items)`
branches: when the property has no `items`, nothing happens. -/
def updItems (s : Sch) (p : String) (g : SchF Sch → SchF Sch) : Sch :=
  updProp s p (fun x =>
    match x.items with
    | some it => { x with items := some (Sch.mk (g it.f)) }
    | none => x)

/-- The guarded push
`if (!schema.required.includes(p)) schema.required.push(p)` used by the
`IsNotEmpty` and `ArrayNotEmpty` branches of `applyDecorators`. -/
def pushRequired (s : Sch) (p : String) : Sch :=
  if p ∈ s.f.required then s
  else Sch.mk { s.f with required := s.f.required ++ [p] }

/-- Discrimination of a decorator name against the
`constants.validatorDecorators` keys, i.e. the case labels of the
`applyDecorators` switch (source lines 862-966); `other` is the
switch's implicit default (unrecognized annotation kinds are ignored).
Factored out of `applyOne` so that the seventeen branches can be
analysed one case at a time. -/
inductive DecKind where
  | kIsString | kIsInt | kIsNumber | kIsBoolean | kIsEmail | kIsDate
  | kIsNotEmpty | kMinLength | kMaxLength | kLength | kMin | kMax
  | kIsPositive | kIsArray | kArrayNotEmpty | kArrayMinSize | kArrayMaxSize
  | other

/-- Match a decorator name against the switch's case labels in source
order. -/
def decKindOf (n : String) : DecKind :=
  if n = vdIsString.name then .kIsString
  else if n = vdIsInt.name then .kIsInt
  else if n = vdIsNumber.name then .kIsNumber
  else if n = vdIsBoolean.name then .kIsBoolean
  else if n = vdIsEmail.name then .kIsEmail
  else if n = vdIsDate.name then .kIsDate
  else if n = vdIsNotEmpty.name then .kIsNotEmpty
  else if n = vdMinLength.name then .kMinLength
  else if n = vdMaxLength.name then .kMaxLength
  else if n = vdLength.name then .kLength
  else if n = vdMin.name then .kMin
  else if n = vdMax.name then .kMax
  else if n = vdIsPositive.name then .kIsPositive
  else if n = vdIsArray.name then .kIsArray
  else if n = vdArrayNotEmpty.name then .kArrayNotEmpty
  else if n = vdArrayMinSize.name then .kArrayMinSize
  else if n = vdArrayMaxSize.name then .kArrayMaxSize
  else .other

/-- One iteration of the `applyDecorators` switch (source lines
859-967).  `isArr` is the `isArrayType` flag computed once before the
loop; `p` is the property name. -/
def applyOne (isArr : Bool) (s : Sch) (p : String) (d : DecoratorInfo) : Sch :=
  match decKindOf d.name with
  | .kIsString =>
    if isArr then updItems s p (fun x => { x with type := vdIsString.vtype })
    else updProp s p (fun x => { x with type := vdIsString.vtype })
  | .kIsInt =>
    if isArr then
      updItems s p (fun x => { x with type := vdIsInt.vtype, format := some vdIsInt.vformat })
    else
      updProp s p (fun x => { x with type := vdIsInt.vtype, format := some vdIsInt.vformat })
  | .kIsNumber =>
    if isArr then updItems s p (fun x => { x with type := vdIsNumber.vtype })
    else updProp s p (fun x => { x with type := vdIsNumber.vtype })
  | .kIsBoolean =>
    if isArr then updItems s p (fun x => { x with type := vdIsBoolean.vtype })
    else updProp s p (fun x => { x with type := vdIsBoolean.vtype })
  | .kIsEmail =>
    if isArr then updItems s p (fun x => { x with format := some vdIsEmail.vformat })
    else updProp s p (fun x => { x with format := some vdIsEmail.vformat })
  | .kIsDate =>
    if isArr then
      updItems s p (fun x => { x with type := vdIsDate.vtype, format := some vdIsDate.vformat })
    else
      updProp s p (fun x => { x with type := vdIsDate.vtype, format := some vdIsDate.vformat })
  | .kIsNotEmpty => pushRequired s p
  | .kMinLength => updProp s p (fun x => { x with minLength := d.arguments.get? 0 })
  | .kMaxLength => updProp s p (fun x => { x with maxLength := d.arguments.get? 0 })
  | .kLength =>
    let s1 := updProp s p (fun x => { x with minLength := d.arguments.get? 0 })
    match d.arguments.get? 1 with
    | some v => if v = 0 then s1 else updProp s1 p (fun x => { x with maxLength := some v })
    | none => s1
  | .kMin => updProp s p (fun x => { x with minimum := d.arguments.get? 0 })
  | .kMax => updProp s p (fun x => { x with maximum := d.arguments.get? 0 })
  | .kIsPositive => updProp s p (fun x => { x with minimum := some 0 })
  | .kIsArray => updProp s p (fun x => { x with type := jpArray.value })
  | .kArrayNotEmpty => pushRequired (updProp s p (fun x => { x with minItems := some 1 })) p
  | .kArrayMinSize => updProp s p (fun x => { x with minItems := d.arguments.get? 0 })
  | .kArrayMaxSize => updProp s p (fun x => { x with maxItems := d.arguments.get? 0 })
  | .other => s

/-- The `for (const decorator of decorators)` loop of
`applyDecorators`, folded left to right. -/
def applyList (isArr : Bool) (p : String) : List DecoratorInfo → Sch → Sch
  | [], s => s
  | d :: rest, s => applyList isArr p rest (applyOne isArr s p d)

/-- `applyDecorators(decorators, schema, propertyName)` (source lines
850-968): computes `isArrayType` once from the property's current
`type`, then applies the decorator switch in declaration order.  The
`none` branch mirrors the fact that the source dereferences
`schema.properties[propertyName]` up front. -/
def applyDecorators (decorators : List DecoratorInfo) (schema : Sch) (propertyName : String) : Sch :=
  match assocGet schema.f.properties propertyName with
  | none => schema
  | some p0 => applyList (p0.f.type = jpArray.value) propertyName decorators schema

/-- Result record of `mapTypeToSchema`: `{type, format?, nestedSchema?}`. -/
structure MapResult where
  type : String
  format : Option String := none
  nestedSchema : Option Sch := none

/-- Body of `mapTypeToSchema(type)` (source lines 783-839),
parameterized by the recursive hook `tbn` standing for the enclosing
instance's `this.transformByName` (with its environment fixed) and by a
structural bound on array-suffix peeling (instantiated below with more
than the length of the type string, so it never runs out on real
input).  Arrays produce `{type: "array", nestedSchema: {type: "array",
items, properties: {}, required: []}}`; primitive names are matched
lower-cased; every other name is treated as a class reference, with a
thrown `Error` from the lookup caught and degraded to
`{type: "object"}` (cache mutations made before the throw persist). -/
def mapGo (tbn : Cache → String → TRes TResult) :
    Nat → Cache → String → TRes MapResult
  | 0, _, _ => .diverge
  | Nat.succ k, cache, ty =>
    if strEndsWith ty "[]" then
      match mapGo tbn k cache (strDropRight2 ty) with
      | .ok es c2 =>
        let items0 : Sch :=
          match es.nestedSchema with
          | some ns => ns
          | none => Sch.mk { type := es.type }
        let items1 : Sch :=
          match es.format with
          | some fm => Sch.mk { items0.f with format := some fm }
          | none => items0
        .ok { type := "array",
              nestedSchema := some (Sch.mk { type := "array", items := some items1 }) } c2
      | .err c2 => .err c2
      | .diverge => .diverge
    else
      if strToLower ty = strToLower jpString.ptype then .ok { type := jpString.value } cache
      else if strToLower ty = strToLower jpNumber.ptype then .ok { type := jpNumber.value } cache
      else if strToLower ty = strToLower jpBoolean.ptype then .ok { type := jpBoolean.value } cache
      else if strToLower ty = strToLower jpDate.ptype then
        .ok { type := jpDate.value, format := jpDate.pformat } cache
      else if strToLower ty = strToLower jpBuffer.ptype ∨ strToLower ty = strToLower jpUint8Array.ptype then
        .ok { type := jpBuffer.value, format := jpBuffer.pformat } cache
      else
        match tbn cache ty with
        | .ok r c2 => .ok { type := jpObject.value, nestedSchema := some r.schema } c2
        | .err c2 => .ok { type := jpObject.value } c2
        | .diverge => .diverge

/-- The `for (const property of properties)` loop of `generateSchema`
(source lines 757-770), parameterized by the type-resolution hook
`mts` (the enclosing `this.mapTypeToSchema`): resolve the field's
declared type, insert the property fragment (the nested schema when
one was produced, else `{type}` plus the format when present), then
apply the field's decorators. -/
def genFieldsGo (mts : Cache → String → TRes MapResult) :
    List PropertyInfo → Cache → Sch → TRes Sch
  | [], cache, schema => .ok schema cache
  | p :: rest, cache, schema =>
    match mts cache p.type with
    | .ok m c2 =>
      let base : Sch :=
        match m.nestedSchema with
        | some ns => ns
        | none => Sch.mk { type := m.type, format := m.format }
      let schema1 := withProp schema p.name base
      let schema2 := applyDecorators p.decorators schema1 p.name
      genFieldsGo mts rest c2 schema2
    | .err c2 => .err c2
    | .diverge => .diverge

/-- `generateSchema(properties)` (source lines 750-773): start from
`{type: "object", properties: {}, required: []}` and process the fields
in declaration order. -/
def generateSchemaGo (mts : Cache → String → TRes MapResult)
    (props : List PropertyInfo) (cache : Cache) : TRes Sch :=
  genFieldsGo mts props cache (Sch.mk { type := "object" })

/-- `transformClass(classNode)` (source lines 593-602): pair the class
name with the generated schema. -/
def transformClassGo (mts : Cache → String → TRes MapResult)
    (cls : ClassDecl) (cache : Cache) : TRes TResult :=
  match generateSchemaGo mts cls.props cache with
  | .ok s c2 => .ok { name := cls.name, schema := s } c2
  | .err c2 => .err c2
  | .diverge => .diverge

/-- `findClassByName` over all non-declaration source files of the
program, modelled as a flat list of class declarations searched in
order (source lines 526-537 and 568-584). -/
def findClassByName (env : List ClassDecl) (className : String) : Option ClassDecl :=
  env.find? (fun c => c.name = className)

/-- `transformByName(className)` (source lines 518-540): return the
cached `{name, schema}` pair on a cache hit; otherwise search the
source files for the class, transform it, store the result in the
cache, and return it; throw `Error` when no class is found.  Note the
cache is written only AFTER `transformClass` returns: there is no
in-progress marker.  `fuel` bounds the recursion depth; `.diverge`
means the call recurses deeper than `fuel`. -/
def transformByName (fuel : Nat) (env : List ClassDecl) :
    Cache → String → TRes TResult :=
  match fuel with
  | 0 => fun _ _ => .diverge
  | Nat.succ f => fun cache className =>
    match assocGet cache className with
    | some r => .ok r cache
    | none =>
      match findClassByName env className with
      | some cls =>
        match
          transformClassGo
            (fun c ty => mapGo (fun c2 n2 => transformByName f env c2 n2) (ty.data.length + 1) c ty)
            cls cache with
        | .ok r c2 => .ok r (assocSet c2 className r)
        | .err c2 => .err c2
        | .diverge => .diverge
      | none => .err cache

/-- `mapTypeToSchema` with the recursive hook instantiated the way
`transformByName` instantiates it. -/
def mapTypeToSchema (fuel : Nat) (env : List ClassDecl)
    (cache : Cache) (ty : String) : TRes MapResult :=
  mapGo (fun c2 n2 => transformByName fuel env c2 n2) (ty.data.length + 1) cache ty

/-- The field loop of `generateSchema` with the hook instantiated. -/
def genFields (fuel : Nat) (env : List ClassDecl)
    (props : List PropertyInfo) (cache : Cache) (schema : Sch) : TRes Sch :=
  genFieldsGo (fun c ty => mapTypeToSchema fuel env c ty) props cache schema

/-- `generateSchema` with the hook instantiated. -/
def generateSchema (fuel : Nat) (env : List ClassDecl)
    (props : List PropertyInfo) (cache : Cache) : TRes Sch :=
  generateSchemaGo (fun c ty => mapTypeToSchema fuel env c ty) props cache

/-- The public `transform(cls)` (source lines 556-558): delegate to
`transformByName(cls.name)`. -/
def transform (fuel : Nat) (env : List ClassDecl)
    (cache : Cache) (clsName : String) : TRes TResult :=
  transformByName fuel env cache clsName

theorem assocGet_assocSet_self {α : Type} (l : List (String × α)) (k : String) (v : α) :
    assocGet (assocSet l k v) k = some v := by
  induction l with
  | nil => simp [assocSet, assocGet]
  | cons hd tl ih =>
    obtain ⟨k', v'⟩ := hd
    by_cases h : k' = k
    · simp [assocSet, assocGet, h]
    · simp [assocSet, assocGet, h, ih]

theorem assocGet_assocSet_ne {α : Type} (l : List (String × α)) (k y : String) (v : α)
    (h : y ≠ k) : assocGet (assocSet l k v) y = assocGet l y := by
  have hky : ¬ k = y := Ne.symm h
  induction l with
  | nil => simp [assocSet, assocGet, hky]
  | cons hd tl ih =>
    obtain ⟨k', v'⟩ := hd
    by_cases hk : k' = k
    · subst hk
      simp [assocSet, assocGet, hky]
    · simp [assocSet, assocGet, hk, ih]

theorem assocSet_eq_of_get {α : Type} (l : List (String × α)) (k : String) (v : α)
    (h : assocGet l k = some v) : assocSet l k v = l := by
  induction l with
  | nil => simp [assocGet] at h
  | cons hd tl ih =>
    obtain ⟨k', v'⟩ := hd
    by_cases hk : k' = k
    · subst hk
      simp [assocGet] at h
      simp [assocSet, h]
    · simp [assocGet, hk] at h
      simp [assocSet, hk, ih h]

theorem assocGet_isSome_assocSet {α : Type} (l : List (String × α)) (k y : String) (v : α)
    (h : (assocGet l y).isSome) : (assocGet (assocSet l k v) y).isSome := by
  by_cases hy : y = k
  · subst hy
    simp [assocGet_assocSet_self]
  · rw [assocGet_assocSet_ne l k y v hy]
    exact h

@[simp] theorem Sch.f_mk (d : SchF Sch) : (Sch.mk d).f = d := rfl

theorem withProp_get_self (s : Sch) (p : String) (v : Sch) :
    assocGet (withProp s p v).f.properties p = some v := by
  simp [withProp, Sch.f_mk, assocGet_assocSet_self]

theorem withProp_get_ne (s : Sch) (p y : String) (v : Sch) (h : y ≠ p) :
    assocGet (withProp s p v).f.properties y = assocGet s.f.properties y := by
  simp [withProp, Sch.f_mk, assocGet_assocSet_ne _ _ _ _ h]

theorem withProp_required (s : Sch) (p : String) (v : Sch) :
    (withProp s p v).f.required = s.f.required := rfl

theorem updProp_required (s : Sch) (p : String) (g : SchF Sch → SchF Sch) :
    (updProp s p g).f.required = s.f.required := by
  unfold updProp
  cases assocGet s.f.properties p <;> rfl

theorem updProp_get_ne (s : Sch) (p y : String) (g : SchF Sch → SchF Sch) (h : y ≠ p) :
    assocGet (updProp s p g).f.properties y = assocGet s.f.properties y := by
  unfold updProp
  cases assocGet s.f.properties p with
  | none => rfl
  | some x => simp [Sch.f_mk, assocGet_assocSet_ne _ _ _ _ h]

theorem updProp_get_self (s : Sch) (p : String) (g : SchF Sch → SchF Sch) (x : Sch)
    (h : assocGet s.f.properties p = some x) :
    assocGet (updProp s p g).f.properties p = some (Sch.mk (g x.f)) := by
  unfold updProp
  rw [h]
  simp [Sch.f_mk, assocGet_assocSet_self]

theorem updProp_of_none (s : Sch) (p : String) (g : SchF Sch → SchF Sch)
    (h : assocGet s.f.properties p = none) : updProp s p g = s := by
  unfold updProp
  rw [h]

theorem pushRequired_props (s : Sch) (p : String) :
    (pushRequired s p).f.properties = s.f.properties := by
  unfold pushRequired
  split <;> rfl

theorem pushRequired_required (s : Sch) (p : String) :
    (pushRequired s p).f.required = s.f.required ∨
      ((pushRequired s p).f.required = s.f.required ++ [p] ∧ p ∉ s.f.required) := by
  unfold pushRequired
  by_cases h : p ∈ s.f.required
  · left
    simp [h]
  · right
    simp [h]

theorem pushRequired_mem (s : Sch) (p : String) :
    p ∈ (pushRequired s p).f.required := by
  unfold pushRequired
  by_cases h : p ∈ s.f.required
  · simp [h]
  · simp [h]

/-- The possible shapes of one `applyDecorators` switch iteration: a
single property update, a guarded required-push, the `ArrayNotEmpty`
combination, the two-write `Length` branch, or a no-op. -/
inductive UpdShape (s : Sch) (p : String) : Sch → Prop where
  | upd (g : SchF Sch → SchF Sch) : UpdShape s p (updProp s p g)
  | push : UpdShape s p (pushRequired s p)
  | pushUpd (g : SchF Sch → SchF Sch) : UpdShape s p (pushRequired (updProp s p g) p)
  | updUpd (g1 g2 : SchF Sch → SchF Sch) : UpdShape s p (updProp (updProp s p g1) p g2)
  | skip : UpdShape s p s

theorem applyOne_shape (b : Bool) (s : Sch) (p : String) (d : DecoratorInfo) :
    UpdShape s p (applyOne b s p d) := by
  unfold applyOne updItems
  cases hk : decKindOf d.name <;> simp only [hk] <;>
    first
      | exact .upd _
      | exact .push
      | exact .pushUpd _
      | exact .skip
      | (split_ifs <;> exact .upd _)
      | (cases hg : d.arguments.get? 1 with
          | none => simp only [hg]; exact .upd _
          | some v =>
            simp only [hg]
            split_ifs
            · exact .upd _
            · exact .updUpd _ _)

theorem applyOne_cases (b : Bool) (s : Sch) (p : String) (d : DecoratorInfo) :
    (∃ g, applyOne b s p d = updProp s p g) ∨
      applyOne b s p d = pushRequired s p ∨
      (∃ g, applyOne b s p d = pushRequired (updProp s p g) p) ∨
      (∃ g1 g2, applyOne b s p d = updProp (updProp s p g1) p g2) ∨
      applyOne b s p d = s := by
  have hs := applyOne_shape b s p d
  generalize hEq : applyOne b s p d = t at hs ⊢
  cases hs with
  | upd g => exact Or.inl ⟨g, rfl⟩
  | push => exact Or.inr (Or.inl rfl)
  | pushUpd g => exact Or.inr (Or.inr (Or.inl ⟨g, rfl⟩))
  | updUpd g1 g2 => exact Or.inr (Or.inr (Or.inr (Or.inl ⟨g1, g2, rfl⟩)))
  | skip => exact Or.inr (Or.inr (Or.inr (Or.inr rfl)))

theorem applyOne_get_ne (b : Bool) (s : Sch) (p : String) (d : DecoratorInfo)
    (y : String) (h : y ≠ p) :
    assocGet (applyOne b s p d).f.properties y = assocGet s.f.properties y := by
  have hu : ∀ (s' : Sch) (g : SchF Sch → SchF Sch),
      assocGet (updProp s' p g).f.properties y = assocGet s'.f.properties y :=
    fun s' g => updProp_get_ne s' p y g h
  rcases applyOne_cases b s p d with ⟨g, hc⟩ | hc | ⟨g, hc⟩ | ⟨g1, g2, hc⟩ | hc <;>
    rw [hc] <;>
    simp [hu, pushRequired_props]

theorem applyOne_required_disj (b : Bool) (s : Sch) (p : String) (d : DecoratorInfo) :
    (applyOne b s p d).f.required = s.f.required ∨
      ((applyOne b s p d).f.required = s.f.required ++ [p] ∧ p ∉ s.f.required) := by
  have hpr : ∀ (s' : Sch), s'.f.required = s.f.required →
      (pushRequired s' p).f.required = s.f.required ∨
        ((pushRequired s' p).f.required = s.f.required ++ [p] ∧ p ∉ s.f.required) := by
    intro s' hs
    rcases pushRequired_required s' p with h1 | ⟨h1, h2⟩
    · left
      rw [h1, hs]
    · right
      rw [h1, hs]
      exact ⟨rfl, hs ▸ h2⟩
  rcases applyOne_cases b s p d with ⟨g, hc⟩ | hc | ⟨g, hc⟩ | ⟨g1, g2, hc⟩ | hc <;> rw [hc]
  · left
    exact updProp_required s p g
  · exact hpr s rfl
  · exact hpr (updProp s p g) (updProp_required s p g)
  · left
    rw [updProp_required, updProp_required]
  · left
    rfl

theorem applyOne_required_mono (b : Bool) (s : Sch) (p : String) (d : DecoratorInfo)
    (q : String) (h : q ∈ s.f.required) : q ∈ (applyOne b s p d).f.required := by
  rcases applyOne_required_disj b s p d with h1 | ⟨h1, _⟩ <;> rw [h1] <;> simp [h]

theorem applyOne_required_nodup (b : Bool) (s : Sch) (p : String) (d : DecoratorInfo)
    (h : s.f.required.Nodup) : (applyOne b s p d).f.required.Nodup := by
  rcases applyOne_required_disj b s p d with h1 | ⟨h1, h2⟩ <;> rw [h1]
  · exact h
  · simpa [List.nodup_append, h] using h2

theorem applyOne_required_sub (b : Bool) (s : Sch) (p : String) (d : DecoratorInfo)
    (q : String) (h : q ∈ (applyOne b s p d).f.required) :
    q ∈ s.f.required ∨ q = p := by
  rcases applyOne_required_disj b s p d with h1 | ⟨h1, _⟩ <;> rw [h1] at h
  · exact Or.inl h
  · simpa using h

theorem applyOne_mem_isNotEmpty (b : Bool) (s : Sch) (p : String) (args : List Int) :
    p ∈ (applyOne b s p ⟨vdIsNotEmpty.name, args⟩).f.required := by
  have hk : decKindOf (DecoratorInfo.mk vdIsNotEmpty.name args).name = .kIsNotEmpty := rfl
  unfold applyOne
  rw [hk]
  exact pushRequired_mem s p

theorem applyOne_mem_arrayNotEmpty (b : Bool) (s : Sch) (p : String) (args : List Int) :
    p ∈ (applyOne b s p ⟨vdArrayNotEmpty.name, args⟩).f.required := by
  have hk : decKindOf (DecoratorInfo.mk vdArrayNotEmpty.name args).name = .kArrayNotEmpty := rfl
  unfold applyOne
  rw [hk]
  exact pushRequired_mem (updProp s p (fun x => { x with minItems := some 1 })) p

theorem applyList_get_ne (b : Bool) (p : String) (ds : List DecoratorInfo) (s : Sch)
    (y : String) (h : y ≠ p) :
    assocGet (applyList b p ds s).f.properties y = assocGet s.f.properties y := by
  induction ds generalizing s with
  | nil => rfl
  | cons d rest ih =>
    rw [applyList, ih (applyOne b s p d), applyOne_get_ne b s p d y h]

theorem applyList_required_mono (b : Bool) (p : String) (ds : List DecoratorInfo) (s : Sch)
    (q : String) (h : q ∈ s.f.required) : q ∈ (applyList b p ds s).f.required := by
  induction ds generalizing s with
  | nil => exact h
  | cons d rest ih => exact ih (applyOne b s p d) (applyOne_required_mono b s p d q h)

theorem applyList_required_nodup (b : Bool) (p : String) (ds : List DecoratorInfo) (s : Sch)
    (h : s.f.required.Nodup) : (applyList b p ds s).f.required.Nodup := by
  induction ds generalizing s with
  | nil => exact h
  | cons d rest ih => exact ih (applyOne b s p d) (applyOne_required_nodup b s p d h)

theorem applyList_required_sub (b : Bool) (p : String) (ds : List DecoratorInfo) (s : Sch)
    (q : String) (h : q ∈ (applyList b p ds s).f.required) :
    q ∈ s.f.required ∨ q = p := by
  induction ds generalizing s with
  | nil => exact Or.inl h
  | cons d rest ih =>
    rcases ih (applyOne b s p d) h with h1 | h1
    · exact applyOne_required_sub b s p d q h1
    · exact Or.inr h1

theorem applyList_mem_of_push (b : Bool) (p : String) (ds : List DecoratorInfo) (s : Sch)
    (d : DecoratorInfo) (hd : d ∈ ds)
    (hn : d.name = vdIsNotEmpty.name ∨ d.name = vdArrayNotEmpty.name) :
    p ∈ (applyList b p ds s).f.required := by
  induction ds generalizing s with
  | nil => cases hd
  | cons d0 rest ih =>
    rcases List.mem_cons.mp hd with h0 | h0
    · subst h0
      rw [applyList]
      apply applyList_required_mono
      obtain ⟨n, args⟩ := d
      rcases hn with hn | hn <;> rw [show n = _ from hn]
      · exact applyOne_mem_isNotEmpty b s p args
      · exact applyOne_mem_arrayNotEmpty b s p args
    · exact ih (applyOne b s p d0) h0

theorem applyDecorators_nil (s : Sch) (p : String) : applyDecorators [] s p = s := by
  unfold applyDecorators
  cases assocGet s.f.properties p <;> rfl

theorem applyDecorators_get_ne (ds : List DecoratorInfo) (s : Sch) (p y : String)
    (h : y ≠ p) :
    assocGet (applyDecorators ds s p).f.properties y = assocGet s.f.properties y := by
  unfold applyDecorators
  cases assocGet s.f.properties p with
  | none => rfl
  | some p0 => exact applyList_get_ne _ p ds s y h

theorem applyDecorators_required_mono (ds : List DecoratorInfo) (s : Sch) (p q : String)
    (h : q ∈ s.f.required) : q ∈ (applyDecorators ds s p).f.required := by
  unfold applyDecorators
  cases assocGet s.f.properties p with
  | none => exact h
  | some p0 => exact applyList_required_mono _ p ds s q h

theorem applyDecorators_required_nodup (ds : List DecoratorInfo) (s : Sch) (p : String)
    (h : s.f.required.Nodup) : (applyDecorators ds s p).f.required.Nodup := by
  unfold applyDecorators
  cases assocGet s.f.properties p with
  | none => exact h
  | some p0 => exact applyList_required_nodup _ p ds s h

theorem applyDecorators_required_sub (ds : List DecoratorInfo) (s : Sch) (p q : String)
    (h : q ∈ (applyDecorators ds s p).f.required) : q ∈ s.f.required ∨ q = p := by
  unfold applyDecorators at h
  revert h
  cases assocGet s.f.properties p with
  | none => exact fun h => Or.inl h
  | some p0 => exact applyList_required_sub _ p ds s q

theorem applyDecorators_mem_of_push (ds : List DecoratorInfo) (s : Sch) (p : String)
    (d : DecoratorInfo) (hd : d ∈ ds)
    (hn : d.name = vdIsNotEmpty.name ∨ d.name = vdArrayNotEmpty.name)
    (hp : (assocGet s.f.properties p).isSome) :
    p ∈ (applyDecorators ds s p).f.required := by
  unfold applyDecorators
  cases hg : assocGet s.f.properties p with
  | none => rw [hg] at hp; cases hp
  | some p0 => exact applyList_mem_of_push _ p ds s d hd hn

/-- Two schema objects that have the same `required` list and the same
property bindings except possibly at key `x`.  Used to show that one
degraded field binding does not influence how sibling fields compile. -/
def AgreeX (x : String) (s t : Sch) : Prop :=
  s.f.required = t.f.required ∧
    ∀ y, y ≠ x → assocGet s.f.properties y = assocGet t.f.properties y

theorem agreeX_withProp_self (x : String) (s : Sch) (v : Sch) :
    AgreeX x (withProp s x v) s := by
  refine ⟨withProp_required s x v, fun y hy => withProp_get_ne s x y v hy⟩

theorem agreeX_withProp (x : String) (s t : Sch) (p : String) (v : Sch)
    (h : AgreeX x s t) : AgreeX x (withProp s p v) (withProp t p v) := by
  obtain ⟨hr, hp⟩ := h
  refine ⟨by rw [withProp_required, withProp_required, hr], fun y hy => ?_⟩
  by_cases hyp : y = p
  · subst hyp
    rw [withProp_get_self, withProp_get_self]
  · rw [withProp_get_ne s p y v hyp, withProp_get_ne t p y v hyp]
    exact hp y hy

theorem agreeX_updProp (x : String) (s t : Sch) (p : String)
    (g : SchF Sch → SchF Sch) (hpx : p ≠ x) (h : AgreeX x s t) :
    AgreeX x (updProp s p g) (updProp t p g) := by
  obtain ⟨hr, hp⟩ := h
  have hpp : assocGet s.f.properties p = assocGet t.f.properties p := hp p hpx
  unfold updProp
  rw [← hpp]
  cases hg : assocGet s.f.properties p with
  | none => exact ⟨hr, hp⟩
  | some x0 =>
    refine ⟨hr, fun y hy => ?_⟩
    by_cases hyp : y = p
    · subst hyp
      rw [Sch.f_mk, Sch.f_mk, assocGet_assocSet_self, assocGet_assocSet_self]
    · rw [Sch.f_mk, Sch.f_mk, assocGet_assocSet_ne _ _ _ _ hyp,
        assocGet_assocSet_ne _ _ _ _ hyp]
      exact hp y hy

theorem agreeX_pushRequired (x : String) (s t : Sch) (p : String)
    (h : AgreeX x s t) : AgreeX x (pushRequired s p) (pushRequired t p) := by
  obtain ⟨hr, hp⟩ := h
  unfold pushRequired
  rw [hr]
  by_cases hm : p ∈ t.f.required
  · simp only [hm, if_true]
    exact ⟨hr, hp⟩
  · simp only [hm, if_false]
    exact ⟨by simp [hr], fun y hy => by simpa using hp y hy⟩

theorem agreeX_applyOne (x : String) (s t : Sch) (b : Bool) (p : String)
    (d : DecoratorInfo) (hpx : p ≠ x) (h : AgreeX x s t) :
    AgreeX x (applyOne b s p d) (applyOne b t p d) := by
  unfold applyOne updItems
  cases hk : decKindOf d.name <;>
    first
      | exact agreeX_updProp x s t p _ hpx h
      | exact agreeX_pushRequired x s t p h
      | exact agreeX_pushRequired x _ _ p (agreeX_updProp x s t p _ hpx h)
      | (split_ifs <;> exact agreeX_updProp x s t p _ hpx h)
      | (cases hg : d.arguments.get? 1 with
          | none => simp only [hg]; exact agreeX_updProp x s t p _ hpx h
          | some v =>
            simp only [hg]
            split_ifs
            · exact agreeX_updProp x s t p _ hpx h
            · exact agreeX_updProp x _ _ p _ hpx (agreeX_updProp x s t p _ hpx h))
      | exact h

theorem agreeX_applyList (x : String) (s t : Sch) (b : Bool) (p : String)
    (ds : List DecoratorInfo) (hpx : p ≠ x) (h : AgreeX x s t) :
    AgreeX x (applyList b p ds s) (applyList b p ds t) := by
  induction ds generalizing s t with
  | nil => exact h
  | cons d rest ih =>
    exact ih (applyOne b s p d) (applyOne b t p d) (agreeX_applyOne x s t b p d hpx h)

theorem agreeX_applyDecorators (x : String) (s t : Sch) (p : String)
    (ds : List DecoratorInfo) (hpx : p ≠ x) (h : AgreeX x s t) :
    AgreeX x (applyDecorators ds s p) (applyDecorators ds t p) := by
  have hpp : assocGet s.f.properties p = assocGet t.f.properties p := h.2 p hpx
  unfold applyDecorators
  rw [← hpp]
  cases assocGet s.f.properties p with
  | none => exact h
  | some p0 => exact agreeX_applyList x s t _ p ds hpx h

/-- Lift of `AgreeX` to engine outcomes: same outcome shape, same cache,
related schemas. -/
def ResAgreeX (x : String) : TRes Sch → TRes Sch → Prop
  | .ok s c, .ok t c2 => c = c2 ∧ AgreeX x s t
  | .err c, .err c2 => c = c2
  | .diverge, .diverge => True
  | _, _ => False

theorem genFieldsGo_agreeX (mts : Cache → String → TRes MapResult) (x : String)
    (props : List PropertyInfo) (hx : ∀ q ∈ props, q.name ≠ x)
    (cache : Cache) (s t : Sch) (h : AgreeX x s t) :
    ResAgreeX x (genFieldsGo mts props cache s) (genFieldsGo mts props cache t) := by
  induction props generalizing cache s t with
  | nil => exact ⟨rfl, h⟩
  | cons p rest ih =>
    rw [genFieldsGo, genFieldsGo]
    cases mts cache p.type with
    | ok m c2 =>
      have hpn : p.name ≠ x := hx p (List.mem_cons_self p rest)
      refine ih (fun q hq => hx q (List.mem_cons_of_mem p hq)) c2 _ _ ?_
      exact agreeX_applyDecorators x _ _ p.name p.decorators hpn
        (agreeX_withProp x s t p.name _ h)
    | err c2 => exact rfl
    | diverge => exact trivial

theorem transformByName_succ (f : Nat) (env : List ClassDecl) (cache : Cache) (n : String) :
    transformByName (Nat.succ f) env cache n =
      match assocGet cache n with
      | some r => .ok r cache
      | none =>
        match findClassByName env n with
        | some cls =>
          match transformClassGo
              (fun c ty => mapGo (fun c2 n2 => transformByName f env c2 n2) (ty.data.length + 1) c ty)
              cls cache with
          | .ok r c2 => .ok r (assocSet c2 n r)
          | .err c2 => .err c2
          | .diverge => .diverge
        | none => .err cache := rfl

theorem transformByName_notfound (f : Nat) (env : List ClassDecl) (cache : Cache)
    (n : String) (hc : assocGet cache n = none) (he : findClassByName env n = none) :
    transformByName (f + 1) env cache n = .err cache := by
  unfold transformByName
  rw [hc, he]

theorem mapGo_unresolved (tbn : Cache → String → TRes TResult) (k : Nat)
    (cache : Cache) (ty : String)
    (harr : strEndsWith ty "[]" = false)
    (hprim : strToLower ty ∉ (["string", "number", "boolean", "date", "buffer", "uint8array"] : List String))
    (htbn : tbn cache ty = .err cache) :
    mapGo tbn (k + 1) cache ty = .ok { type := jpObject.value } cache := by
  simp only [List.mem_cons, List.mem_singleton, not_or] at hprim
  obtain ⟨h1, h2, h3, h4, h5, h6, -⟩ := hprim
  unfold mapGo
  rw [harr]
  simp only [Bool.false_eq_true, if_false]
  rw [if_neg (by exact h1), if_neg (by exact h2), if_neg (by exact h3),
    if_neg (by exact h4), if_neg (by simp only [not_or]; exact ⟨h5, h6⟩), htbn]

theorem mapTypeToSchema_unresolved (g : Nat) (env : List ClassDecl) (cache : Cache)
    (ty : String)
    (harr : strEndsWith ty "[]" = false)
    (hprim : strToLower ty ∉ (["string", "number", "boolean", "date", "buffer", "uint8array"] : List String))
    (hfind : findClassByName env ty = none)
    (hcache : assocGet cache ty = none) :
    mapTypeToSchema (g + 1) env cache ty = .ok { type := jpObject.value } cache := by
  unfold mapTypeToSchema
  exact mapGo_unresolved _ ty.data.length cache ty harr hprim
    (transformByName_notfound g env cache ty hcache hfind)

theorem genFieldsGo_append (mts : Cache → String → TRes MapResult)
    (l1 l2 : List PropertyInfo) (cache : Cache) (s : Sch) :
    genFieldsGo mts (l1 ++ l2) cache s =
      match genFieldsGo mts l1 cache s with
      | .ok s1 c1 => genFieldsGo mts l2 c1 s1
      | .err c1 => .err c1
      | .diverge => .diverge := by
  induction l1 generalizing cache s with
  | nil => rfl
  | cons p rest ih =>
    rw [List.cons_append, genFieldsGo, genFieldsGo]
    cases mts cache p.type with
    | ok m c2 => exact ih c2 _
    | err c2 => rfl
    | diverge => rfl

theorem genFieldsGo_get_notin (mts : Cache → String → TRes MapResult)
    (props : List PropertyInfo) (cache : Cache) (s s' : Sch) (c' : Cache)
    (h : genFieldsGo mts props cache s = .ok s' c')
    (y : String) (hy : ∀ q ∈ props, q.name ≠ y) :
    assocGet s'.f.properties y = assocGet s.f.properties y := by
  induction props generalizing cache s with
  | nil =>
    rw [genFieldsGo] at h
    cases h
    rfl
  | cons p rest ih =>
    rw [genFieldsGo] at h
    cases hm : mts cache p.type with
    | ok m c2 =>
      rw [hm] at h
      have hpy : p.name ≠ y := hy p (List.mem_cons_self p rest)
      have hrest := ih c2 _ h (fun q hq => hy q (List.mem_cons_of_mem p hq))
      rw [hrest, applyDecorators_get_ne _ _ _ _ (Ne.symm hpy),
        withProp_get_ne _ _ _ _ (Ne.symm hpy)]
    | err c2 => rw [hm] at h; cases h
    | diverge => rw [hm] at h; cases h

theorem genFieldsGo_required_mono (mts : Cache → String → TRes MapResult)
    (props : List PropertyInfo) (cache : Cache) (s s' : Sch) (c' : Cache)
    (h : genFieldsGo mts props cache s = .ok s' c')
    (q : String) (hq : q ∈ s.f.required) : q ∈ s'.f.required := by
  induction props generalizing cache s with
  | nil =>
    rw [genFieldsGo] at h
    cases h
    exact hq
  | cons p rest ih =>
    rw [genFieldsGo] at h
    cases hm : mts cache p.type with
    | ok m c2 =>
      rw [hm] at h
      refine ih c2 _ h ?_
      refine applyDecorators_required_mono _ _ _ q ?_
      rw [withProp_required]
      exact hq
    | err c2 => rw [hm] at h; cases h
    | diverge => rw [hm] at h; cases h

theorem genFieldsGo_required_nodup (mts : Cache → String → TRes MapResult)
    (props : List PropertyInfo) (cache : Cache) (s s' : Sch) (c' : Cache)
    (h : genFieldsGo mts props cache s = .ok s' c')
    (hn : s.f.required.Nodup) : s'.f.required.Nodup := by
  induction props generalizing cache s with
  | nil =>
    rw [genFieldsGo] at h
    cases h
    exact hn
  | cons p rest ih =>
    rw [genFieldsGo] at h
    cases hm : mts cache p.type with
    | ok m c2 =>
      rw [hm] at h
      refine ih c2 _ h ?_
      refine applyDecorators_required_nodup _ _ _ ?_
      rw [withProp_required]
      exact hn
    | err c2 => rw [hm] at h; cases h
    | diverge => rw [hm] at h; cases h

theorem genFieldsGo_required_sub (mts : Cache → String → TRes MapResult)
    (props : List PropertyInfo) (cache : Cache) (s s' : Sch) (c' : Cache)
    (h : genFieldsGo mts props cache s = .ok s' c')
    (q : String) (hq : q ∈ s'.f.required) :
    q ∈ s.f.required ∨ ∃ fp ∈ props, fp.name = q := by
  induction props generalizing cache s with
  | nil =>
    rw [genFieldsGo] at h
    cases h
    exact Or.inl hq
  | cons p rest ih =>
    rw [genFieldsGo] at h
    cases hm : mts cache p.type with
    | ok m c2 =>
      rw [hm] at h
      rcases ih c2 _ h with h1 | ⟨fp, hfp, hfq⟩
      · rcases applyDecorators_required_sub _ _ _ q h1 with h2 | h2
        · rw [withProp_required] at h2
          exact Or.inl h2
        · exact Or.inr ⟨p, List.mem_cons_self p rest, h2.symm⟩
      · exact Or.inr ⟨fp, List.mem_cons_of_mem p hfp, hfq⟩
    | err c2 => rw [hm] at h; cases h
    | diverge => rw [hm] at h; cases h

theorem genFieldsGo_mem_of_push (mts : Cache → String → TRes MapResult)
    (props : List PropertyInfo) (cache : Cache) (s s' : Sch) (c' : Cache)
    (h : genFieldsGo mts props cache s = .ok s' c')
    (fp : PropertyInfo) (hfp : fp ∈ props) (d : DecoratorInfo) (hd : d ∈ fp.decorators)
    (hn : d.name = vdIsNotEmpty.name ∨ d.name = vdArrayNotEmpty.name) :
    fp.name ∈ s'.f.required := by
  revert hfp h
  induction props generalizing cache s with
  | nil => intro _ hfp; cases hfp
  | cons p rest ih =>
    intro h hfp
    rw [genFieldsGo] at h
    cases hm : mts cache p.type with
    | ok m c2 =>
      rw [hm] at h
      rcases List.mem_cons.mp hfp with h0 | h0
      · subst h0
        refine genFieldsGo_required_mono mts rest c2 _ s' c' h fp.name ?_
        refine applyDecorators_mem_of_push fp.decorators _ fp.name d hd hn ?_
        rw [withProp_get_self]
        rfl
      · exact ih c2 _ h h0
    | err c2 => rw [hm] at h; cases h
    | diverge => rw [hm] at h; cases h


@[simp] theorem Sch.mk_f (s : Sch) : Sch.mk s.f = s := by
  cases s
  rfl

theorem updItems_none_eq (s : Sch) (p : String) (g : SchF Sch → SchF Sch) (x : Sch)
    (hx : assocGet s.f.properties p = some x) (hit : x.f.items = none) :
    updItems s p g = s := by
  unfold updItems updProp
  rw [hx]
  simp only [hit, Sch.mk_f]
  rw [assocSet_eq_of_get _ _ _ hx]
  exact Sch.mk_f s

theorem decKindOf_arrayMinSize_inv (n : String) (h : decKindOf n = .kArrayMinSize) :
    n = vdArrayMinSize.name := by
  unfold decKindOf at h
  by_cases h1 : n = vdIsString.name
  · rw [if_pos h1] at h; exact DecKind.noConfusion h
  rw [if_neg h1] at h
  by_cases h2 : n = vdIsInt.name
  · rw [if_pos h2] at h; exact DecKind.noConfusion h
  rw [if_neg h2] at h
  by_cases h3 : n = vdIsNumber.name
  · rw [if_pos h3] at h; exact DecKind.noConfusion h
  rw [if_neg h3] at h
  by_cases h4 : n = vdIsBoolean.name
  · rw [if_pos h4] at h; exact DecKind.noConfusion h
  rw [if_neg h4] at h
  by_cases h5 : n = vdIsEmail.name
  · rw [if_pos h5] at h; exact DecKind.noConfusion h
  rw [if_neg h5] at h
  by_cases h6 : n = vdIsDate.name
  · rw [if_pos h6] at h; exact DecKind.noConfusion h
  rw [if_neg h6] at h
  by_cases h7 : n = vdIsNotEmpty.name
  · rw [if_pos h7] at h; exact DecKind.noConfusion h
  rw [if_neg h7] at h
  by_cases h8 : n = vdMinLength.name
  · rw [if_pos h8] at h; exact DecKind.noConfusion h
  rw [if_neg h8] at h
  by_cases h9 : n = vdMaxLength.name
  · rw [if_pos h9] at h; exact DecKind.noConfusion h
  rw [if_neg h9] at h
  by_cases h10 : n = vdLength.name
  · rw [if_pos h10] at h; exact DecKind.noConfusion h
  rw [if_neg h10] at h
  by_cases h11 : n = vdMin.name
  · rw [if_pos h11] at h; exact DecKind.noConfusion h
  rw [if_neg h11] at h
  by_cases h12 : n = vdMax.name
  · rw [if_pos h12] at h; exact DecKind.noConfusion h
  rw [if_neg h12] at h
  by_cases h13 : n = vdIsPositive.name
  · rw [if_pos h13] at h; exact DecKind.noConfusion h
  rw [if_neg h13] at h
  by_cases h14 : n = vdIsArray.name
  · rw [if_pos h14] at h; exact DecKind.noConfusion h
  rw [if_neg h14] at h
  by_cases h15 : n = vdArrayNotEmpty.name
  · rw [if_pos h15] at h; exact DecKind.noConfusion h
  rw [if_neg h15] at h
  by_cases h16 : n = vdArrayMinSize.name
  · exact h16
  rw [if_neg h16] at h
  by_cases h17 : n = vdArrayMaxSize.name
  · rw [if_pos h17] at h; exact DecKind.noConfusion h
  rw [if_neg h17] at h
  exact DecKind.noConfusion h

theorem applyOne_present (b : Bool) (s : Sch) (p : String) (d : DecoratorInfo)
    (h : (assocGet s.f.properties p).isSome) :
    (assocGet (applyOne b s p d).f.properties p).isSome := by
  obtain ⟨x, hx⟩ := Option.isSome_iff_exists.mp h
  have hupd : ∀ (s0 : Sch) (x0 : Sch) (g : SchF Sch → SchF Sch),
      assocGet s0.f.properties p = some x0 →
      (assocGet (updProp s0 p g).f.properties p).isSome := by
    intro s0 x0 g h0
    rw [updProp_get_self s0 p g x0 h0]
    rfl
  rcases applyOne_cases b s p d with ⟨g, hc⟩ | hc | ⟨g, hc⟩ | ⟨g1, g2, hc⟩ | hc <;> rw [hc]
  · exact hupd s x g hx
  · rw [pushRequired_props, hx]; rfl
  · rw [pushRequired_props]
    exact hupd s x g hx
  · obtain ⟨x1, hx1⟩ := Option.isSome_iff_exists.mp (hupd s x g1 hx)
    exact hupd _ x1 g2 hx1
  · rw [hx]; rfl

/-- The property binding is present and its `minItems` is `1`. -/
def MinItemsOne (p : String) (s : Sch) : Prop :=
  ∃ x, assocGet s.f.properties p = some x ∧ x.f.minItems = some 1

theorem applyOne_minItemsOne_pres (b : Bool) (s : Sch) (p : String) (d : DecoratorInfo)
    (hk : decKindOf d.name ≠ .kArrayMinSize) (h : MinItemsOne p s) :
    MinItemsOne p (applyOne b s p d) := by
  obtain ⟨x, hx, hm⟩ := h
  have hupd : ∀ (s0 : Sch) (x0 : Sch) (g : SchF Sch → SchF Sch),
      assocGet s0.f.properties p = some x0 →
      ((g x0.f).minItems = x0.f.minItems ∨ (g x0.f).minItems = some 1) →
      x0.f.minItems = some 1 →
      MinItemsOne p (updProp s0 p g) := by
    intro s0 x0 g h0 hg hm0
    refine ⟨_, updProp_get_self s0 p g x0 h0, ?_⟩
    rw [Sch.f_mk]
    rcases hg with h1 | h1
    · rw [h1]; exact hm0
    · rw [h1]
  unfold applyOne updItems
  cases hck : decKindOf d.name
  case kIsString =>
    split_ifs <;> exact hupd s x _ hx (Or.inl (by cases hxi : x.f.items <;> simp [hxi])) hm
  case kIsInt =>
    split_ifs <;> exact hupd s x _ hx (Or.inl (by cases hxi : x.f.items <;> simp [hxi])) hm
  case kIsNumber =>
    split_ifs <;> exact hupd s x _ hx (Or.inl (by cases hxi : x.f.items <;> simp [hxi])) hm
  case kIsBoolean =>
    split_ifs <;> exact hupd s x _ hx (Or.inl (by cases hxi : x.f.items <;> simp [hxi])) hm
  case kIsEmail =>
    split_ifs <;> exact hupd s x _ hx (Or.inl (by cases hxi : x.f.items <;> simp [hxi])) hm
  case kIsDate =>
    split_ifs <;> exact hupd s x _ hx (Or.inl (by cases hxi : x.f.items <;> simp [hxi])) hm
  case kIsNotEmpty =>
    exact ⟨x, by rw [pushRequired_props]; exact hx, hm⟩
  case kMinLength => exact hupd s x _ hx (Or.inl rfl) hm
  case kMaxLength => exact hupd s x _ hx (Or.inl rfl) hm
  case kLength =>
    cases hg : d.arguments.get? 1 with
    | none => simp only [hg]; exact hupd s x _ hx (Or.inl rfl) hm
    | some v =>
      simp only [hg]
      split_ifs
      · exact hupd s x _ hx (Or.inl rfl) hm
      · obtain ⟨x1, hx1, hm1⟩ :=
          hupd s x (fun z => { z with minLength := d.arguments.get? 0 }) hx (Or.inl rfl) hm
        refine hupd _ x1 (fun z => { z with maxLength := some v }) hx1 (Or.inl ?_) hm1
        rfl
  case kMin => exact hupd s x _ hx (Or.inl rfl) hm
  case kMax => exact hupd s x _ hx (Or.inl rfl) hm
  case kIsPositive => exact hupd s x _ hx (Or.inl rfl) hm
  case kIsArray => exact hupd s x _ hx (Or.inl rfl) hm
  case kArrayNotEmpty =>
    refine ⟨Sch.mk { x.f with minItems := some 1 }, ?_, rfl⟩
    rw [pushRequired_props]
    exact updProp_get_self s p (fun z => { z with minItems := some 1 }) x hx
  case kArrayMinSize => exact absurd hck hk
  case kArrayMaxSize => exact hupd s x _ hx (Or.inl rfl) hm
  case other => exact ⟨x, hx, hm⟩

theorem applyOne_arrayNotEmpty_minItemsOne (b : Bool) (s : Sch) (p : String)
    (args : List Int) (x : Sch) (hx : assocGet s.f.properties p = some x) :
    MinItemsOne p (applyOne b s p ⟨vdArrayNotEmpty.name, args⟩) := by
  have heq : applyOne b s p ⟨vdArrayNotEmpty.name, args⟩ =
      pushRequired (updProp s p (fun x => { x with minItems := some 1 })) p := rfl
  rw [heq]
  refine ⟨Sch.mk { x.f with minItems := some 1 }, ?_, rfl⟩
  rw [pushRequired_props]
  exact updProp_get_self s p (fun z => { z with minItems := some 1 }) x hx

theorem applyList_present (b : Bool) (p : String) (ds : List DecoratorInfo) (s : Sch)
    (h : (assocGet s.f.properties p).isSome) :
    (assocGet (applyList b p ds s).f.properties p).isSome := by
  induction ds generalizing s with
  | nil => exact h
  | cons d rest ih => exact ih (applyOne b s p d) (applyOne_present b s p d h)

theorem applyList_minItemsOne_pres (b : Bool) (p : String) :
    ∀ (ds : List DecoratorInfo) (s : Sch),
      (∀ d ∈ ds, decKindOf d.name ≠ .kArrayMinSize) →
      MinItemsOne p s → MinItemsOne p (applyList b p ds s) := by
  intro ds
  induction ds with
  | nil => exact fun s _ h => h
  | cons d rest ih =>
    intro s hk h
    exact ih (applyOne b s p d) (fun d0 hd0 => hk d0 (List.mem_cons_of_mem d hd0))
      (applyOne_minItemsOne_pres b s p d (hk d (List.mem_cons_self d rest)) h)

theorem applyList_minItemsOne (b : Bool) (p : String) (dane : DecoratorInfo)
    (hname : dane.name = vdArrayNotEmpty.name) :
    ∀ (ds : List DecoratorInfo) (s : Sch), dane ∈ ds →
      (∀ d ∈ ds, d.name ≠ vdArrayMinSize.name) →
      (assocGet s.f.properties p).isSome →
      MinItemsOne p (applyList b p ds s) := by
  intro ds
  induction ds with
  | nil => intro s hin; cases hin
  | cons d rest ih =>
    intro s hin hnomin hp
    rcases List.mem_cons.mp hin with h0 | h0
    · subst h0
      rw [applyList]
      refine applyList_minItemsOne_pres b p rest _ ?_ ?_
      · intro d0 hd0 hk0
        exact hnomin d0 (List.mem_cons_of_mem dane hd0) (decKindOf_arrayMinSize_inv _ hk0)
      · obtain ⟨x, hx⟩ := Option.isSome_iff_exists.mp hp
        obtain ⟨n, args⟩ := dane
        simp only at hname
        subst hname
        exact applyOne_arrayNotEmpty_minItemsOne b s p args x hx
    · rw [applyList]
      exact ih (applyOne b s p d) h0 (fun d0 hd0 => hnomin d0 (List.mem_cons_of_mem d hd0))
        (applyOne_present b s p d hp)

theorem applyOne_elem_noop (s : Sch) (p : String) (d : DecoratorInfo) (x : Sch)
    (hx : assocGet s.f.properties p = some x) (hit : x.f.items = none)
    (hn : d.name = vdIsString.name ∨ d.name = vdIsInt.name ∨ d.name = vdIsNumber.name ∨
      d.name = vdIsBoolean.name ∨ d.name = vdIsEmail.name ∨ d.name = vdIsDate.name) :
    applyOne true s p d = s := by
  obtain ⟨n, args⟩ := d
  simp only at hn
  rcases hn with h | h | h | h | h | h <;> subst h
  · rw [show applyOne true s p ⟨vdIsString.name, args⟩ =
        updItems s p (fun z => { z with type := vdIsString.vtype }) from rfl]
    exact updItems_none_eq s p _ x hx hit
  · rw [show applyOne true s p ⟨vdIsInt.name, args⟩ =
        updItems s p (fun z => { z with type := vdIsInt.vtype, format := some vdIsInt.vformat }) from rfl]
    exact updItems_none_eq s p _ x hx hit
  · rw [show applyOne true s p ⟨vdIsNumber.name, args⟩ =
        updItems s p (fun z => { z with type := vdIsNumber.vtype }) from rfl]
    exact updItems_none_eq s p _ x hx hit
  · rw [show applyOne true s p ⟨vdIsBoolean.name, args⟩ =
        updItems s p (fun z => { z with type := vdIsBoolean.vtype }) from rfl]
    exact updItems_none_eq s p _ x hx hit
  · rw [show applyOne true s p ⟨vdIsEmail.name, args⟩ =
        updItems s p (fun z => { z with format := some vdIsEmail.vformat }) from rfl]
    exact updItems_none_eq s p _ x hx hit
  · rw [show applyOne true s p ⟨vdIsDate.name, args⟩ =
        updItems s p (fun z => { z with type := vdIsDate.vtype, format := some vdIsDate.vformat }) from rfl]
    exact updItems_none_eq s p _ x hx hit

theorem applyList_elem_noop (p : String) (ds : List DecoratorInfo) (s : Sch) (x : Sch)
    (hx : assocGet s.f.properties p = some x) (hit : x.f.items = none)
    (hds : ∀ d ∈ ds, d.name = vdIsString.name ∨ d.name = vdIsInt.name ∨
      d.name = vdIsNumber.name ∨ d.name = vdIsBoolean.name ∨ d.name = vdIsEmail.name ∨
      d.name = vdIsDate.name) :
    applyList true p ds s = s := by
  induction ds with
  | nil => rfl
  | cons d rest ih =>
    rw [applyList, applyOne_elem_noop s p d x hx hit (hds d (List.mem_cons_self d rest))]
    exact ih (fun d0 hd0 => hds d0 (List.mem_cons_of_mem d hd0))

theorem assocGet_mem {α : Type} (l : List (String × α)) (k : String) (v : α)
    (h : assocGet l k = some v) : (k, v) ∈ l := by
  induction l with
  | nil => cases h
  | cons hd tl ih =>
    obtain ⟨k', v'⟩ := hd
    by_cases hk : k' = k
    · subst hk
      simp [assocGet] at h
      simp [h]
    · simp [assocGet, hk] at h
      exact List.mem_cons_of_mem _ (ih h)

theorem mem_assocSet {α : Type} (l : List (String × α)) (k : String) (v : α)
    (pr : String × α) (h : pr ∈ assocSet l k v) : pr ∈ l ∨ pr = (k, v) := by
  induction l with
  | nil => simpa [assocSet] using h
  | cons hd tl ih =>
    obtain ⟨k', v'⟩ := hd
    by_cases hk : k' = k
    · subst hk
      simp only [assocSet, if_pos rfl] at h
      rcases List.mem_cons.mp h with h0 | h0
      · exact Or.inr h0
      · exact Or.inl (List.mem_cons_of_mem _ h0)
    · simp only [assocSet, if_neg hk] at h
      rcases List.mem_cons.mp h with h0 | h0
      · exact Or.inl (h0 ▸ List.mem_cons_self _ _)
      · rcases ih h0 with h1 | h1
        · exact Or.inl (List.mem_cons_of_mem _ h1)
        · exact Or.inr h1

/-- The invariant claimed by the spec for every produced schema:
every name in `required` is a key of `properties`, recursively in all
nested property schemas and `items` schemas. -/
inductive RequiredOK : Sch → Prop where
  | mk (d : SchF Sch)
      (hreq : ∀ r ∈ d.required, (assocGet d.properties r).isSome)
      (hprops : ∀ pr ∈ d.properties, RequiredOK pr.2)
      (hitems : ∀ it, d.items = some it → RequiredOK it) :
      RequiredOK (Sch.mk d)

theorem RequiredOK.req (s : Sch) (h : RequiredOK s) :
    ∀ r ∈ s.f.required, (assocGet s.f.properties r).isSome := by
  cases h with
  | mk d hreq hprops hitems => exact hreq

theorem RequiredOK.prop (s : Sch) (h : RequiredOK s) :
    ∀ pr ∈ s.f.properties, RequiredOK pr.2 := by
  cases h with
  | mk d hreq hprops hitems => exact hprops

theorem RequiredOK.item (s : Sch) (h : RequiredOK s) :
    ∀ it, s.f.items = some it → RequiredOK it := by
  cases h with
  | mk d hreq hprops hitems => exact hitems

theorem RequiredOK.of_f (s : Sch)
    (hreq : ∀ r ∈ s.f.required, (assocGet s.f.properties r).isSome)
    (hprops : ∀ pr ∈ s.f.properties, RequiredOK pr.2)
    (hitems : ∀ it, s.f.items = some it → RequiredOK it) : RequiredOK s := by
  have h := RequiredOK.mk s.f hreq hprops hitems
  rwa [Sch.mk_f] at h

theorem RequiredOK_leaf (t : String) (fm : Option String) :
    RequiredOK (Sch.mk { type := t, format := fm }) := by
  refine RequiredOK.mk _ ?_ ?_ ?_ <;> intro a ha <;> simp at ha

theorem RequiredOK_withProp (s : Sch) (p : String) (v : Sch)
    (hs : RequiredOK s) (hv : RequiredOK v) : RequiredOK (withProp s p v) := by
  refine RequiredOK.of_f _ ?_ ?_ ?_
  · intro r hr
    rw [withProp_required] at hr
    exact assocGet_isSome_assocSet _ _ _ _ (hs.req _ r hr)
  · intro pr hpr
    have hpr2 : pr ∈ assocSet s.f.properties p v := hpr
    rcases mem_assocSet _ _ _ _ hpr2 with h0 | h0
    · exact hs.prop _ pr h0
    · rw [h0]
      exact hv
  · intro it hit
    exact hs.item _ it hit

theorem RequiredOK_mk_scalar (z z' : SchF Sch)
    (hreq : z'.required = z.required) (hprops : z'.properties = z.properties)
    (hitems : z'.items = z.items) (h : RequiredOK (Sch.mk z)) : RequiredOK (Sch.mk z') := by
  refine RequiredOK.mk _ ?_ ?_ ?_
  · rw [hreq, hprops]
    exact h.req _
  · rw [hprops]
    exact h.prop _
  · rw [hitems]
    exact h.item _

theorem RequiredOK_updProp (s : Sch) (p : String) (g : SchF Sch → SchF Sch)
    (hg : ∀ z : Sch, RequiredOK z → RequiredOK (Sch.mk (g z.f)))
    (hs : RequiredOK s) : RequiredOK (updProp s p g) := by
  unfold updProp
  cases hx : assocGet s.f.properties p with
  | none => exact hs
  | some x =>
    have hxok : RequiredOK x := hs.prop _ (p, x) (assocGet_mem _ _ _ hx)
    show RequiredOK (withProp s p (Sch.mk (g x.f)))
    exact RequiredOK_withProp s p _ hs (hg x hxok)

theorem RequiredOK_pushRequired (s : Sch) (p : String)
    (hp : (assocGet s.f.properties p).isSome) (hs : RequiredOK s) :
    RequiredOK (pushRequired s p) := by
  unfold pushRequired
  split_ifs with hmem
  · exact hs
  · refine RequiredOK.mk _ ?_ ?_ ?_
    · intro r hr
      simp only [List.mem_append, List.mem_singleton] at hr
      rcases hr with h0 | h0
      · exact hs.req _ r h0
      · rw [h0]
        exact hp
    · exact hs.prop _
    · exact hs.item _

theorem RequiredOK_items_update (z : SchF Sch) (g' : SchF Sch → SchF Sch)
    (hg' : ∀ w : Sch, RequiredOK w → RequiredOK (Sch.mk (g' w.f)))
    (h : RequiredOK (Sch.mk z)) :
    RequiredOK (Sch.mk (match z.items with
      | some it => { z with items := some (Sch.mk (g' it.f)) }
      | none => z)) := by
  cases hzi : z.items with
  | none => exact h
  | some it =>
    refine RequiredOK.mk _ ?_ ?_ ?_
    · exact h.req _
    · exact h.prop _
    · intro it2 hit2
      simp only [Option.some_inj] at hit2
      rw [← hit2]
      exact hg' it (h.item _ it hzi)

theorem applyOne_requiredOK (b : Bool) (s : Sch) (p : String) (d : DecoratorInfo)
    (hp : (assocGet s.f.properties p).isSome) (hs : RequiredOK s) :
    RequiredOK (applyOne b s p d) := by
  obtain ⟨x, hx⟩ := Option.isSome_iff_exists.mp hp
  unfold applyOne updItems
  cases hck : decKindOf d.name
  case kIsString =>
    split_ifs
    · refine RequiredOK_updProp s p _ ?_ hs
      intro z hz
      refine RequiredOK_items_update z.f (fun x => { x with type := vdIsString.vtype }) ?_ (by rwa [Sch.mk_f])
      intro w hw
      refine RequiredOK_mk_scalar w.f _ ?_ ?_ ?_ (by rwa [Sch.mk_f]) <;> rfl
    · refine RequiredOK_updProp s p _ ?_ hs
      intro z hz
      refine RequiredOK_mk_scalar z.f _ ?_ ?_ ?_ (by rwa [Sch.mk_f]) <;> rfl
  case kIsInt =>
    split_ifs
    · refine RequiredOK_updProp s p _ ?_ hs
      intro z hz
      refine RequiredOK_items_update z.f (fun x => { x with type := vdIsInt.vtype, format := some vdIsInt.vformat }) ?_ (by rwa [Sch.mk_f])
      intro w hw
      refine RequiredOK_mk_scalar w.f _ ?_ ?_ ?_ (by rwa [Sch.mk_f]) <;> rfl
    · refine RequiredOK_updProp s p _ ?_ hs
      intro z hz
      refine RequiredOK_mk_scalar z.f _ ?_ ?_ ?_ (by rwa [Sch.mk_f]) <;> rfl
  case kIsNumber =>
    split_ifs
    · refine RequiredOK_updProp s p _ ?_ hs
      intro z hz
      refine RequiredOK_items_update z.f (fun x => { x with type := vdIsNumber.vtype }) ?_ (by rwa [Sch.mk_f])
      intro w hw
      refine RequiredOK_mk_scalar w.f _ ?_ ?_ ?_ (by rwa [Sch.mk_f]) <;> rfl
    · refine RequiredOK_updProp s p _ ?_ hs
      intro z hz
      refine RequiredOK_mk_scalar z.f _ ?_ ?_ ?_ (by rwa [Sch.mk_f]) <;> rfl
  case kIsBoolean =>
    split_ifs
    · refine RequiredOK_updProp s p _ ?_ hs
      intro z hz
      refine RequiredOK_items_update z.f (fun x => { x with type := vdIsBoolean.vtype }) ?_ (by rwa [Sch.mk_f])
      intro w hw
      refine RequiredOK_mk_scalar w.f _ ?_ ?_ ?_ (by rwa [Sch.mk_f]) <;> rfl
    · refine RequiredOK_updProp s p _ ?_ hs
      intro z hz
      refine RequiredOK_mk_scalar z.f _ ?_ ?_ ?_ (by rwa [Sch.mk_f]) <;> rfl
  case kIsEmail =>
    split_ifs
    · refine RequiredOK_updProp s p _ ?_ hs
      intro z hz
      refine RequiredOK_items_update z.f (fun x => { x with format := some vdIsEmail.vformat }) ?_ (by rwa [Sch.mk_f])
      intro w hw
      refine RequiredOK_mk_scalar w.f _ ?_ ?_ ?_ (by rwa [Sch.mk_f]) <;> rfl
    · refine RequiredOK_updProp s p _ ?_ hs
      intro z hz
      refine RequiredOK_mk_scalar z.f _ ?_ ?_ ?_ (by rwa [Sch.mk_f]) <;> rfl
  case kIsDate =>
    split_ifs
    · refine RequiredOK_updProp s p _ ?_ hs
      intro z hz
      refine RequiredOK_items_update z.f (fun x => { x with type := vdIsDate.vtype, format := some vdIsDate.vformat }) ?_ (by rwa [Sch.mk_f])
      intro w hw
      refine RequiredOK_mk_scalar w.f _ ?_ ?_ ?_ (by rwa [Sch.mk_f]) <;> rfl
    · refine RequiredOK_updProp s p _ ?_ hs
      intro z hz
      refine RequiredOK_mk_scalar z.f _ ?_ ?_ ?_ (by rwa [Sch.mk_f]) <;> rfl
  case kIsNotEmpty => exact RequiredOK_pushRequired s p hp hs
  case kMinLength =>
    refine RequiredOK_updProp s p _ ?_ hs
    intro z hz
    refine RequiredOK_mk_scalar z.f _ ?_ ?_ ?_ (by rwa [Sch.mk_f]) <;> rfl
  case kMaxLength =>
    refine RequiredOK_updProp s p _ ?_ hs
    intro z hz
    refine RequiredOK_mk_scalar z.f _ ?_ ?_ ?_ (by rwa [Sch.mk_f]) <;> rfl
  case kLength =>
    cases hg : d.arguments.get? 1 with
    | none =>
      simp only [hg]
      refine RequiredOK_updProp s p _ ?_ hs
      intro z hz
      refine RequiredOK_mk_scalar z.f _ ?_ ?_ ?_ (by rwa [Sch.mk_f]) <;> rfl
    | some v =>
      simp only [hg]
      split_ifs
      · refine RequiredOK_updProp s p _ ?_ hs
        intro z hz
        refine RequiredOK_mk_scalar z.f _ ?_ ?_ ?_ (by rwa [Sch.mk_f]) <;> rfl
      · refine RequiredOK_updProp _ p _ ?_ ?_
        · intro z hz
          refine RequiredOK_mk_scalar z.f _ ?_ ?_ ?_ (by rwa [Sch.mk_f]) <;> rfl
        · refine RequiredOK_updProp s p _ ?_ hs
          intro z hz
          refine RequiredOK_mk_scalar z.f _ ?_ ?_ ?_ (by rwa [Sch.mk_f]) <;> rfl
  case kMin =>
    refine RequiredOK_updProp s p _ ?_ hs
    intro z hz
    refine RequiredOK_mk_scalar z.f _ ?_ ?_ ?_ (by rwa [Sch.mk_f]) <;> rfl
  case kMax =>
    refine RequiredOK_updProp s p _ ?_ hs
    intro z hz
    refine RequiredOK_mk_scalar z.f _ ?_ ?_ ?_ (by rwa [Sch.mk_f]) <;> rfl
  case kIsPositive =>
    refine RequiredOK_updProp s p _ ?_ hs
    intro z hz
    refine RequiredOK_mk_scalar z.f _ ?_ ?_ ?_ (by rwa [Sch.mk_f]) <;> rfl
  case kIsArray =>
    refine RequiredOK_updProp s p _ ?_ hs
    intro z hz
    refine RequiredOK_mk_scalar z.f _ ?_ ?_ ?_ (by rwa [Sch.mk_f]) <;> rfl
  case kArrayNotEmpty =>
    refine RequiredOK_pushRequired _ p ?_ ?_
    · rw [updProp_get_self s p _ x hx]
      rfl
    · refine RequiredOK_updProp s p _ ?_ hs
      intro z hz
      refine RequiredOK_mk_scalar z.f _ ?_ ?_ ?_ (by rwa [Sch.mk_f]) <;> rfl
  case kArrayMinSize =>
    refine RequiredOK_updProp s p _ ?_ hs
    intro z hz
    refine RequiredOK_mk_scalar z.f _ ?_ ?_ ?_ (by rwa [Sch.mk_f]) <;> rfl
  case kArrayMaxSize =>
    refine RequiredOK_updProp s p _ ?_ hs
    intro z hz
    refine RequiredOK_mk_scalar z.f _ ?_ ?_ ?_ (by rwa [Sch.mk_f]) <;> rfl
  case other => exact hs

theorem applyList_requiredOK (b : Bool) (p : String) :
    ∀ (ds : List DecoratorInfo) (s : Sch),
      (assocGet s.f.properties p).isSome → RequiredOK s →
      RequiredOK (applyList b p ds s) := by
  intro ds
  induction ds with
  | nil => exact fun s _ h => h
  | cons d rest ih =>
    intro s hp hs
    exact ih (applyOne b s p d) (applyOne_present b s p d hp) (applyOne_requiredOK b s p d hp hs)

theorem applyDecorators_requiredOK (ds : List DecoratorInfo) (s : Sch) (p : String)
    (hs : RequiredOK s) : RequiredOK (applyDecorators ds s p) := by
  unfold applyDecorators
  cases hx : assocGet s.f.properties p with
  | none => exact hs
  | some p0 => exact applyList_requiredOK _ p ds s (by rw [hx]; rfl) hs

/-- Every cached `{name, schema}` pair satisfies the required-names
invariant. -/
def CacheOK (c : Cache) : Prop := ∀ pr ∈ c, RequiredOK pr.2.schema

theorem CacheOK_nil : CacheOK [] := by
  intro pr hpr
  cases hpr

theorem CacheOK_set (c : Cache) (n : String) (r : TResult)
    (hc : CacheOK c) (hr : RequiredOK r.schema) : CacheOK (assocSet c n r) := by
  intro pr hpr
  rcases mem_assocSet c n r pr hpr with h0 | h0
  · exact hc pr h0
  · rw [h0]
    exact hr

theorem CacheOK_get (c : Cache) (n : String) (r : TResult)
    (hc : CacheOK c) (h : assocGet c n = some r) : RequiredOK r.schema :=
  hc (n, r) (assocGet_mem c n r h)

theorem mapGo_inv (tbn : Cache → String → TRes TResult)
    (Hok : ∀ c n r c2, CacheOK c → tbn c n = .ok r c2 → RequiredOK r.schema ∧ CacheOK c2)
    (Herr : ∀ c n c2, CacheOK c → tbn c n = .err c2 → CacheOK c2) :
    ∀ (k : Nat) (cache : Cache) (ty : String), CacheOK cache →
      (∀ m c2, mapGo tbn k cache ty = .ok m c2 →
        (∀ ns, m.nestedSchema = some ns → RequiredOK ns) ∧ CacheOK c2) ∧
      (∀ c2, mapGo tbn k cache ty = .err c2 → CacheOK c2) := by
  intro k
  induction k with
  | zero =>
    intro cache ty hc
    exact ⟨fun m c2 h => (nomatch h), fun c2 h => nomatch h⟩
  | succ k ih =>
    intro cache ty hc
    constructor
    · intro m c2 h
      unfold mapGo at h
      by_cases harr : strEndsWith ty "[]" = true
      · rw [if_pos harr] at h
        cases hrec : mapGo tbn k cache (strDropRight2 ty) with
        | ok es c3 =>
          rw [hrec] at h
          have hih := ((ih cache (strDropRight2 ty) hc).1 es c3 hrec)
          injection h with h1 h2
          subst h1
          subst h2
          refine ⟨?_, hih.2⟩
          intro ns hns
          simp only [Option.some_inj] at hns
          subst hns
          have hitems1ok : RequiredOK (match es.format with
              | some fm => Sch.mk { (match es.nestedSchema with
                  | some ns => ns
                  | none => Sch.mk { type := es.type }).f with format := some fm }
              | none => (match es.nestedSchema with
                  | some ns => ns
                  | none => Sch.mk { type := es.type })) := by
            have hitems0ok : RequiredOK (match es.nestedSchema with
                | some ns => ns
                | none => Sch.mk { type := es.type }) := by
              cases hnes : es.nestedSchema with
              | some ns0 => exact hih.1 ns0 hnes
              | none => exact RequiredOK_leaf es.type none
            cases hfm : es.format with
            | some fm =>
              refine RequiredOK_mk_scalar (match es.nestedSchema with
                  | some ns => ns
                  | none => Sch.mk { type := es.type }).f _ ?_ ?_ ?_ ?_
              · rfl
              · rfl
              · rfl
              · rwa [Sch.mk_f]
            | none => exact hitems0ok
          refine RequiredOK.mk _ ?_ ?_ ?_
          · intro r hr
            cases hr
          · intro pr hpr
            cases hpr
          · intro it hit
            simp only [Option.some_inj] at hit
            rw [← hit]
            exact hitems1ok
        | err c3 =>
          rw [hrec] at h
          cases h
        | diverge =>
          rw [hrec] at h
          cases h
      · rw [if_neg harr] at h
        split_ifs at h
        · injection h with h1 h2
          subst h1
          subst h2
          exact ⟨fun ns hns => (nomatch hns), hc⟩
        · injection h with h1 h2
          subst h1
          subst h2
          exact ⟨fun ns hns => (nomatch hns), hc⟩
        · injection h with h1 h2
          subst h1
          subst h2
          exact ⟨fun ns hns => (nomatch hns), hc⟩
        · injection h with h1 h2
          subst h1
          subst h2
          exact ⟨fun ns hns => (nomatch hns), hc⟩
        · injection h with h1 h2
          subst h1
          subst h2
          exact ⟨fun ns hns => (nomatch hns), hc⟩
        · cases htbn : tbn cache ty with
          | ok r c3 =>
            rw [htbn] at h
            injection h with h1 h2
            subst h1
            subst h2
            obtain ⟨hr, hc3⟩ := Hok cache ty r c3 hc htbn
            refine ⟨?_, hc3⟩
            intro ns hns
            simp only [Option.some_inj] at hns
            rw [← hns]
            exact hr
          | err c3 =>
            rw [htbn] at h
            injection h with h1 h2
            subst h1
            subst h2
            exact ⟨fun ns hns => (nomatch hns), Herr cache ty c3 hc htbn⟩
          | diverge =>
            rw [htbn] at h
            cases h
    · intro c2 h
      unfold mapGo at h
      by_cases harr : strEndsWith ty "[]" = true
      · rw [if_pos harr] at h
        cases hrec : mapGo tbn k cache (strDropRight2 ty) with
        | ok es c3 =>
          rw [hrec] at h
          cases h
        | err c3 =>
          rw [hrec] at h
          injection h with h1
          subst h1
          exact (ih cache (strDropRight2 ty) hc).2 c3 hrec
        | diverge =>
          rw [hrec] at h
          cases h
      · rw [if_neg harr] at h
        split_ifs at h <;>
          first
            | cases h
            | (cases htbn : tbn cache ty with
                | ok r c3 => rw [htbn] at h; cases h
                | err c3 => rw [htbn] at h; cases h
                | diverge => rw [htbn] at h; cases h)

theorem genFieldsGo_inv (mts : Cache → String → TRes MapResult)
    (Hok : ∀ cache ty m c2, CacheOK cache → mts cache ty = .ok m c2 →
      (∀ ns, m.nestedSchema = some ns → RequiredOK ns) ∧ CacheOK c2)
    (Herr : ∀ cache ty c2, CacheOK cache → mts cache ty = .err c2 → CacheOK c2) :
    ∀ (props : List PropertyInfo) (cache : Cache) (s : Sch), CacheOK cache → RequiredOK s →
      (∀ s' c', genFieldsGo mts props cache s = .ok s' c' → RequiredOK s' ∧ CacheOK c') ∧
      (∀ c', genFieldsGo mts props cache s = .err c' → CacheOK c') := by
  intro props
  induction props with
  | nil =>
    intro cache s hc hs
    constructor
    · intro s' c' h
      rw [genFieldsGo] at h
      injection h with h1 h2
      subst h1
      subst h2
      exact ⟨hs, hc⟩
    · intro c' h
      rw [genFieldsGo] at h
      cases h
  | cons p rest ih =>
    intro cache s hc hs
    have step : ∀ m c2, mts cache p.type = .ok m c2 →
        CacheOK c2 ∧ RequiredOK (applyDecorators p.decorators
          (withProp s p.name (match m.nestedSchema with
            | some ns => ns
            | none => Sch.mk { type := m.type, format := m.format })) p.name) := by
      intro m c2 hm
      obtain ⟨hns, hc2⟩ := Hok cache p.type m c2 hc hm
      have hbase : RequiredOK (match m.nestedSchema with
          | some ns => ns
          | none => Sch.mk { type := m.type, format := m.format }) := by
        cases hn : m.nestedSchema with
        | some ns => exact hns ns hn
        | none => exact RequiredOK_leaf m.type m.format
      exact ⟨hc2, applyDecorators_requiredOK _ _ _ (RequiredOK_withProp _ _ _ hs hbase)⟩
    constructor
    · intro s' c' h
      rw [genFieldsGo] at h
      cases hm : mts cache p.type with
      | ok m c2 =>
        rw [hm] at h
        obtain ⟨hc2, hs2⟩ := step m c2 hm
        exact (ih c2 _ hc2 hs2).1 s' c' h
      | err c2 =>
        rw [hm] at h
        cases h
      | diverge =>
        rw [hm] at h
        cases h
    · intro c' h
      rw [genFieldsGo] at h
      cases hm : mts cache p.type with
      | ok m c2 =>
        rw [hm] at h
        obtain ⟨hc2, hs2⟩ := step m c2 hm
        exact (ih c2 _ hc2 hs2).2 c' h
      | err c2 =>
        rw [hm] at h
        injection h with h1
        subst h1
        exact Herr cache p.type c2 hc hm
      | diverge =>
        rw [hm] at h
        cases h

theorem transformClassGo_inv (mts : Cache → String → TRes MapResult)
    (Hok : ∀ cache ty m c2, CacheOK cache → mts cache ty = .ok m c2 →
      (∀ ns, m.nestedSchema = some ns → RequiredOK ns) ∧ CacheOK c2)
    (Herr : ∀ cache ty c2, CacheOK cache → mts cache ty = .err c2 → CacheOK c2)
    (cls : ClassDecl) (cache : Cache) (hc : CacheOK cache) :
    (∀ r c2, transformClassGo mts cls cache = .ok r c2 → RequiredOK r.schema ∧ CacheOK c2) ∧
    (∀ c2, transformClassGo mts cls cache = .err c2 → CacheOK c2) := by
  constructor
  · intro r c2 h
    unfold transformClassGo generateSchemaGo at h
    cases hgs : genFieldsGo mts cls.props cache (Sch.mk { type := "object" }) with
    | ok s c4 =>
      rw [hgs] at h
      injection h with h1 h2
      subst h1
      subst h2
      obtain ⟨hsok, hc4⟩ := (genFieldsGo_inv mts Hok Herr cls.props cache _ hc
        (RequiredOK_leaf "object" none)).1 s c4 hgs
      exact ⟨hsok, hc4⟩
    | err c4 =>
      rw [hgs] at h
      cases h
    | diverge =>
      rw [hgs] at h
      cases h
  · intro c2 h
    unfold transformClassGo generateSchemaGo at h
    cases hgs : genFieldsGo mts cls.props cache (Sch.mk { type := "object" }) with
    | ok s c4 =>
      rw [hgs] at h
      cases h
    | err c4 =>
      rw [hgs] at h
      injection h with h1
      subst h1
      exact (genFieldsGo_inv mts Hok Herr cls.props cache _ hc
        (RequiredOK_leaf "object" none)).2 _ hgs
    | diverge =>
      rw [hgs] at h
      cases h

theorem transformByName_inv :
    ∀ (fuel : Nat) (env : List ClassDecl) (cache : Cache) (n : String), CacheOK cache →
      (∀ r c2, transformByName fuel env cache n = .ok r c2 → RequiredOK r.schema ∧ CacheOK c2) ∧
      (∀ c2, transformByName fuel env cache n = .err c2 → CacheOK c2) := by
  intro fuel
  induction fuel with
  | zero =>
    intro env cache n hc
    exact ⟨fun r c2 h => (nomatch h), fun c2 h => nomatch h⟩
  | succ f ihf =>
    intro env cache n hc
    have Hok : ∀ c n2 r c2, CacheOK c → transformByName f env c n2 = .ok r c2 →
        RequiredOK r.schema ∧ CacheOK c2 :=
      fun c n2 r c2 hc0 h => (ihf env c n2 hc0).1 r c2 h
    have Herr : ∀ c n2 c2, CacheOK c → transformByName f env c n2 = .err c2 → CacheOK c2 :=
      fun c n2 c2 hc0 h => (ihf env c n2 hc0).2 c2 h
    have Hmok : ∀ cache2 ty m c2, CacheOK cache2 →
        mapGo (fun c2 n2 => transformByName f env c2 n2) (ty.data.length + 1) cache2 ty = .ok m c2 →
        (∀ ns, m.nestedSchema = some ns → RequiredOK ns) ∧ CacheOK c2 :=
      fun cache2 ty m c2 hc2 h =>
        (mapGo_inv _ Hok Herr (ty.data.length + 1) cache2 ty hc2).1 m c2 h
    have Hmerr : ∀ cache2 ty c2, CacheOK cache2 →
        mapGo (fun c2 n2 => transformByName f env c2 n2) (ty.data.length + 1) cache2 ty = .err c2 →
        CacheOK c2 :=
      fun cache2 ty c2 hc2 h =>
        (mapGo_inv _ Hok Herr (ty.data.length + 1) cache2 ty hc2).2 c2 h
    cases hg : assocGet cache n with
    | some r0 =>
      have heq : transformByName (Nat.succ f) env cache n = .ok r0 cache := by
        rw [transformByName_succ, hg]
      constructor
      · intro r c2 h
        rw [heq] at h
        injection h with h1 h2
        subst h1
        subst h2
        exact ⟨CacheOK_get cache n r0 hc hg, hc⟩
      · intro c2 h
        rw [heq] at h
        cases h
    | none =>
      cases hf : findClassByName env n with
      | some cls =>
        have heq : transformByName (Nat.succ f) env cache n =
            match transformClassGo
                (fun c ty => mapGo (fun c2 n2 => transformByName f env c2 n2) (ty.data.length + 1) c ty)
                cls cache with
            | .ok r2 c3 => .ok r2 (assocSet c3 n r2)
            | .err c3 => .err c3
            | .diverge => .diverge := by
          rw [transformByName_succ, hg, hf]
        constructor
        · intro r c2 h
          rw [heq] at h
          cases htc : transformClassGo
              (fun c ty => mapGo (fun c2 n2 => transformByName f env c2 n2) (ty.data.length + 1) c ty)
              cls cache with
          | ok r2 c3 =>
            rw [htc] at h
            injection h with h1 h2
            subst h1
            subst h2
            obtain ⟨hr2, hc3⟩ := (transformClassGo_inv _ Hmok Hmerr cls cache hc).1 r2 c3 htc
            exact ⟨hr2, CacheOK_set c3 n r2 hc3 hr2⟩
          | err c3 =>
            rw [htc] at h
            cases h
          | diverge =>
            rw [htc] at h
            cases h
        · intro c2 h
          rw [heq] at h
          cases htc : transformClassGo
              (fun c ty => mapGo (fun c2 n2 => transformByName f env c2 n2) (ty.data.length + 1) c ty)
              cls cache with
          | ok r2 c3 =>
            rw [htc] at h
            cases h
          | err c3 =>
            rw [htc] at h
            injection h with h1
            subst h1
            exact (transformClassGo_inv _ Hmok Hmerr cls cache hc).2 _ htc
          | diverge =>
            rw [htc] at h
            cases h
      | none =>
        have heq : transformByName (Nat.succ f) env cache n = .err cache :=
          transformByName_notfound f env cache n hg hf
        constructor
        · intro r c2 h
          rw [heq] at h
          cases h
        · intro c2 h
          rw [heq] at h
          injection h with h1
          subst h1
          exact hc

/- ================== Claim theorems ================== -/

theorem genFieldsGo_cons_diverge (mts : Cache → String → TRes MapResult)
    (p : PropertyInfo) (rest : List PropertyInfo) (cache : Cache) (s : Sch)
    (h : mts cache p.type = .diverge) :
    genFieldsGo mts (p :: rest) cache s = .diverge := by
  rw [genFieldsGo, h]

theorem transformClassGo_diverge (mts : Cache → String → TRes MapResult)
    (cls : ClassDecl) (cache : Cache)
    (h : genFieldsGo mts cls.props cache (Sch.mk { type := "object" }) = .diverge) :
    transformClassGo mts cls cache = .diverge := by
  unfold transformClassGo generateSchemaGo
  rw [h]

/-- A source program consisting of one class `Node` whose single field
`next` is declared with the class's own type — the directly
self-referencing model of the cycle-safety property. -/
def envC1Node : List ClassDecl :=
  [{ name := "Node", props := [{ name := "next", type := "Node", decorators := [] }] }]

theorem c1_step (tbn : Cache → String → TRes TResult)
    (h : tbn [] "Node" = .diverge) :
    transformClassGo (fun c ty => mapGo tbn (ty.data.length + 1) c ty)
      { name := "Node", props := [{ name := "next", type := "Node", decorators := [] }] }
      [] = .diverge := by
  have hm : mapGo tbn ("Node".data.length + 1) ([] : Cache) "Node" = .diverge := by
    have heq : mapGo tbn ("Node".data.length + 1) ([] : Cache) "Node" =
        match tbn [] "Node" with
        | .ok r c2 => .ok { type := jpObject.value, nestedSchema := some r.schema } c2
        | .err c2 => .ok { type := jpObject.value } c2
        | .diverge => .diverge := rfl
    rw [heq, h]
  exact transformClassGo_diverge
    (fun c ty => mapGo tbn (ty.data.length + 1) c ty)
    { name := "Node", props := [{ name := "next", type := "Node", decorators := [] }] }
    []
    (genFieldsGo_cons_diverge (fun c ty => mapGo tbn (ty.data.length + 1) c ty)
      { name := "next", type := "Node", decorators := [] } [] [] (Sch.mk { type := "object" }) hm)

/-- C1: the spec claims a self-referencing model compiles without
non-termination, the cycle being broken by an in-progress cache entry.
The code has no such marker: `transformByName` writes `classCache` only
AFTER `transformClass` returns (source line 534), so resolving the
`next: Node` field re-enters `transformByName("Node")` on a cache that
is still empty, and the recursion never bottoms out.  In the embedding,
compilation of `Node` exhausts EVERY recursion bound `fuel`, i.e. the
source program recurses deeper than any finite depth — it overflows the
stack instead of terminating.  This refutes the claim as stated. -/
theorem c1_self_reference_diverges :
    ∀ fuel : Nat, transformByName fuel envC1Node [] "Node" = .diverge := by
  intro fuel
  induction fuel with
  | zero => rfl
  | succ f ih =>
    have heq : transformByName (Nat.succ f) envC1Node [] "Node" =
        match transformClassGo
            (fun c ty => mapGo (fun c2 n2 => transformByName f envC1Node c2 n2) (ty.data.length + 1) c ty)
            { name := "Node", props := [{ name := "next", type := "Node", decorators := [] }] }
            [] with
        | .ok r c2 => .ok r (assocSet c2 "Node" r)
        | .err c2 => .err c2
        | .diverge => .diverge := rfl
    rw [heq, c1_step (fun c2 n2 => transformByName f envC1Node c2 n2) ih]

/-- A source program containing one user-defined class whose name ends
in the `File` suffix. -/
def envC4File : List ClassDecl := [{ name := "AvatarFile", props := [] }]

/-- C4: the binary-family claim holds for the explicit byte-buffer type
(`Buffer`) and the typed byte array (`Uint8Array`), both mapped through
the lower-cased primitive table to `{type: "string", format:
"binary"}` — but it FAILS for the nominal file-upload types: the kept
`mapTypeToSchema` (source lines 783-839) has no `UploadFile` /
`"File"`-suffix case at all.  The name `uploadfile` falls through to
the class-reference default and degrades to `{type: "object"}`, and a
user-defined class `AvatarFile` is compiled as an ordinary nested
object schema, never as `{type: "string", format: "binary"}`.  The
repository's own unit test (`mapTypeToSchema should handle UploadFile
type`, expecting `binary` for `'uploadfile'`) and its README agree with
the spec, so this is a bug in the kept code. -/
theorem c4_binary_family_uploadfile_missing :
    mapTypeToSchema 1 [] [] "Buffer" = .ok { type := "string", format := some "binary" } [] ∧
    mapTypeToSchema 1 [] [] "Uint8Array" = .ok { type := "string", format := some "binary" } [] ∧
    mapTypeToSchema 1 [] [] "uploadfile" = .ok { type := "object" } [] ∧
    mapTypeToSchema 1 envC4File [] "AvatarFile" =
      .ok { type := "object", nestedSchema := some (Sch.mk { type := "object" }) }
        [("AvatarFile", { name := "AvatarFile", schema := Sch.mk { type := "object" } })] ∧
    ({ type := "object" } : MapResult) ≠ { type := "string", format := some "binary" } := by
  refine ⟨rfl, rfl, rfl, rfl, ?_⟩
  intro h
  injection h with h1 h2 h3
  exact absurd h1 (by decide)

/-- C8: invoking compilation on a top-level model name that no class
declaration matches is surfaced as a hard failure: `transform`
delegates to `transformByName`, whose final branch throws (`.err`)
when `findClassByName` comes back empty — in contrast to the same
unresolvable name appearing as a NESTED reference, where
`mapTypeToSchema`'s try/catch recovers it to `{type: "object"}`. -/
theorem c8_missing_toplevel_raises (f : Nat) (env : List ClassDecl) (cache : Cache)
    (n : String)
    (hc : assocGet cache n = none)
    (he : findClassByName env n = none)
    (harr : strEndsWith n "[]" = false)
    (hprim : strToLower n ∉ (["string", "number", "boolean", "date", "buffer", "uint8array"] : List String)) :
    transform (f + 1) env cache n = .err cache ∧
    mapTypeToSchema (f + 1) env cache n = .ok { type := jpObject.value } cache :=
  ⟨transformByName_notfound f env cache n hc he,
   mapTypeToSchema_unresolved f env cache n harr hprim he hc⟩

/-- Witness for C8 at the concrete name `Missing` against an empty
program. -/
theorem c8_missing_toplevel_raises_witness :
    transform 1 [] [] "Missing" = .err [] ∧
    mapTypeToSchema 1 [] [] "Missing" = .ok { type := jpObject.value } [] :=
  c8_missing_toplevel_raises 0 [] [] "Missing" rfl rfl rfl (by decide)

/-- C9: in every completed compilation (starting from a cache whose
entries already satisfy the invariant, in particular the empty cache),
every name in the resulting schema's `required` list is a key of that
schema's `properties` map, recursively through every nested object
schema and item schema: `required` names are pushed only by the
`IsNotEmpty` / `ArrayNotEmpty` branches of `applyDecorators`, which run
only after `generateSchema` has inserted the property, and nested
schemas come from recursive compilations with the same invariant. -/
theorem c9_required_subset_properties (fuel : Nat) (env : List ClassDecl)
    (cache : Cache) (n : String) (r : TResult) (c2 : Cache)
    (hc : CacheOK cache) (h : transform fuel env cache n = .ok r c2) :
    RequiredOK r.schema :=
  ((transformByName_inv fuel env cache n hc).1 r c2 h).1

/-- Witness for C9 on a one-class program whose field is marked
required. -/
theorem c9_required_subset_properties_witness :
    RequiredOK (Sch.mk
      { type := "object",
        properties := [("name", Sch.mk { type := "string" })],
        required := ["name"] }) :=
  c9_required_subset_properties 1
    [{ name := "Person",
       props := [{ name := "name", type := "string",
                   decorators := [{ name := "IsNotEmpty", arguments := [] }] }] }]
    [] "Person"
    { name := "Person",
      schema := Sch.mk
        { type := "object",
          properties := [("name", Sch.mk { type := "string" })],
          required := ["name"] } }
    [("Person",
      { name := "Person",
        schema := Sch.mk
          { type := "object",
            properties := [("name", Sch.mk { type := "string" })],
            required := ["name"] } })]
    CacheOK_nil rfl

/-- C10: when a property's schema already has `type: "array"` but no
`items` object (as after a bare `IsArray`), every element-targeted
annotation (`IsString`, `IsInt`, `IsNumber`, `IsBoolean`, `IsEmail`,
`IsDate`) is a silent no-op: each of those switch branches is guarded
by `else if (schema.properties[p].items)`, so nothing dereferences the
missing `items` and the schema is returned unchanged. -/
theorem c10_element_annotations_noop (ds : List DecoratorInfo) (s : Sch) (p : String)
    (x : Sch)
    (hx : assocGet s.f.properties p = some x)
    (htype : x.f.type = jpArray.value)
    (hit : x.f.items = none)
    (hds : ∀ d ∈ ds, d.name ∈ ([vdIsString.name, vdIsInt.name, vdIsNumber.name,
      vdIsBoolean.name, vdIsEmail.name, vdIsDate.name] : List String)) :
    applyDecorators ds s p = s := by
  unfold applyDecorators
  rw [hx]
  show applyList (decide (x.f.type = jpArray.value)) p ds s = s
  rw [decide_eq_true htype]
  refine applyList_elem_noop p ds s x hx hit (fun d hd => ?_)
  have h0 := hds d hd
  simp only [List.mem_cons, List.mem_singleton, List.not_mem_nil, or_false] at h0
  exact h0

/-- The object schema with a single items-less `array` property used
to witness C10. -/
def sC10 : Sch :=
  Sch.mk { type := "object", properties := [("tags", Sch.mk { type := "array" })] }

/-- Witness for C10: `IsString` and `IsEmail` leave the items-less
array property untouched. -/
theorem c10_element_annotations_noop_witness :
    applyDecorators [{ name := "IsString", arguments := [] },
      { name := "IsEmail", arguments := [] }] sC10 "tags" = sC10 :=
  c10_element_annotations_noop
    [{ name := "IsString", arguments := [] }, { name := "IsEmail", arguments := [] }]
    sC10 "tags" (Sch.mk { type := "array" }) rfl rfl rfl (by decide)

theorem genFieldsGo_cons_ok (mts : Cache → String → TRes MapResult)
    (p : PropertyInfo) (rest : List PropertyInfo) (cache c2 : Cache) (s : Sch)
    (m : MapResult) (b : Sch)
    (h : mts cache p.type = .ok m c2)
    (hb : (match m.nestedSchema with
           | some ns => ns
           | none => Sch.mk { type := m.type, format := m.format }) = b) :
    genFieldsGo mts (p :: rest) cache s =
      genFieldsGo mts rest c2 (applyDecorators p.decorators (withProp s p.name b) p.name) := by
  subst hb
  rw [genFieldsGo, h]

theorem transformByName_cached (fuel : Nat) (env : List ClassDecl) (cache : Cache)
    (n : String) (r : TResult) (c' : Cache)
    (h : transformByName fuel env cache n = .ok r c') : assocGet c' n = some r := by
  cases fuel with
  | zero => cases h
  | succ f =>
    cases hg : assocGet cache n with
    | some r0 =>
      have heq : transformByName (Nat.succ f) env cache n = .ok r0 cache := by
        rw [transformByName_succ, hg]
      rw [heq] at h
      injection h with h1 h2
      subst h1
      subst h2
      exact hg
    | none =>
      cases hf : findClassByName env n with
      | some cls =>
        have heq : transformByName (Nat.succ f) env cache n =
            match transformClassGo
                (fun c ty => mapGo (fun c2 n2 => transformByName f env c2 n2) (ty.data.length + 1) c ty)
                cls cache with
            | .ok r2 c3 => .ok r2 (assocSet c3 n r2)
            | .err c3 => .err c3
            | .diverge => .diverge := by
          rw [transformByName_succ, hg, hf]
        rw [heq] at h
        cases htc : transformClassGo
            (fun c ty => mapGo (fun c2 n2 => transformByName f env c2 n2) (ty.data.length + 1) c ty)
            cls cache with
        | ok r2 c3 =>
          rw [htc] at h
          injection h with h1 h2
          subst h1
          subst h2
          exact assocGet_assocSet_self c3 n r2
        | err c3 => rw [htc] at h; cases h
        | diverge => rw [htc] at h; cases h
      | none =>
        rw [transformByName_notfound f env cache n hg hf] at h
        cases h

/-- C2: every successful `transform` leaves the compiled `{name,
schema}` pair in `classCache` under the model's name, so compiling the
same model a second time within the run takes the cache-hit path and
returns the stored pair itself, with the cache unchanged — the
second result is identical to the first. -/
theorem c2_second_transform_is_cache_hit (fuel g : Nat) (env : List ClassDecl)
    (cache : Cache) (n : String) (r : TResult) (c' : Cache)
    (h : transform fuel env cache n = .ok r c') :
    transform (g + 1) env c' n = .ok r c' := by
  have hc : assocGet c' n = some r := transformByName_cached fuel env cache n r c' h
  show transformByName (g + 1) env c' n = .ok r c'
  rw [transformByName_succ, hc]

/-- Witness for C2: compiling `A` a second time on the cache produced
by the first compilation returns the identical result. -/
theorem c2_second_transform_is_cache_hit_witness :
    transform 1 [{ name := "A", props := [{ name := "name", type := "string", decorators := [] }] }]
      [] "A" =
      .ok { name := "A", schema := Sch.mk { type := "object", properties := [("name", Sch.mk { type := "string" })] } }
        [("A", { name := "A", schema := Sch.mk { type := "object", properties := [("name", Sch.mk { type := "string" })] } })] ∧
    transform 1 [{ name := "A", props := [{ name := "name", type := "string", decorators := [] }] }]
      [("A", { name := "A", schema := Sch.mk { type := "object", properties := [("name", Sch.mk { type := "string" })] } })] "A" =
      .ok { name := "A", schema := Sch.mk { type := "object", properties := [("name", Sch.mk { type := "string" })] } }
        [("A", { name := "A", schema := Sch.mk { type := "object", properties := [("name", Sch.mk { type := "string" })] } })] :=
  ⟨rfl,
   c2_second_transform_is_cache_hit 1 0
     [{ name := "A", props := [{ name := "name", type := "string", decorators := [] }] }]
     [] "A"
     { name := "A", schema := Sch.mk { type := "object", properties := [("name", Sch.mk { type := "string" })] } }
     [("A", { name := "A", schema := Sch.mk { type := "object", properties := [("name", Sch.mk { type := "string" })] } })]
     rfl⟩

/-- The object schema with one string property used to witness C5. -/
def sC5 : Sch :=
  Sch.mk { type := "object", properties := [("createdAt", Sch.mk { type := "string" })] }

/-- C5: the declared primitive type `Date` maps (through the
lower-cased primitive table, whose `Date` entry carries `value:
"string"` and `format: "date-time"`) to `{type: "string", format:
"date-time"}` at every recursion depth, environment and cache; the
`IsDate` annotation rewrites a (non-array) property's schema to `type:
"string"`/`format: "date-time"`; and a `Date`-typed field without
annotations is recorded in the generated schema as exactly that
property fragment.  The primitive table and decorator names are
modelled from the spec because `constants.ts` is absent from the
repository snapshot (the retained `fixtures.ts` belongs to the older
reflection-based transformer and is incompatible with the kept code
and its unit tests). -/
theorem c5_date_maps_to_datetime :
    (∀ (fuel : Nat) (env : List ClassDecl) (cache : Cache),
      mapTypeToSchema fuel env cache "Date" =
        .ok { type := "string", format := some "date-time" } cache) ∧
    (∀ (s : Sch) (p : String) (args : List Int) (x : Sch),
      assocGet s.f.properties p = some x → x.f.type ≠ jpArray.value →
      assocGet (applyDecorators [{ name := "IsDate", arguments := args }] s p).f.properties p =
        some (Sch.mk { x.f with type := "string", format := some "date-time" })) ∧
    (∀ (fuel : Nat) (env : List ClassDecl) (nm : String) (rest : List PropertyInfo)
        (cache : Cache) (s : Sch),
      genFields fuel env ({ name := nm, type := "Date", decorators := [] } :: rest) cache s =
        genFields fuel env rest cache
          (withProp s nm (Sch.mk { type := "string", format := some "date-time" }))) := by
  have hdate : ∀ (fuel : Nat) (env : List ClassDecl) (cache : Cache),
      mapTypeToSchema fuel env cache "Date" =
        .ok { type := "string", format := some "date-time" } cache :=
    fun _ _ _ => rfl
  refine ⟨hdate, ?_, ?_⟩
  · intro s p args x hx htype
    unfold applyDecorators
    rw [hx]
    show assocGet (applyList (decide (x.f.type = jpArray.value)) p
      [{ name := "IsDate", arguments := args }] s).f.properties p = _
    rw [decide_eq_false htype]
    have h1 : applyList false p [({ name := "IsDate", arguments := args } : DecoratorInfo)] s =
        updProp s p (fun z => { z with type := vdIsDate.vtype, format := some vdIsDate.vformat }) := rfl
    rw [h1]
    exact updProp_get_self s p _ x hx
  · intro fuel env nm rest cache s
    have hstep := genFieldsGo_cons_ok (fun c ty => mapTypeToSchema fuel env c ty)
      { name := nm, type := "Date", decorators := [] } rest cache cache s
      { type := "string", format := some "date-time" }
      (Sch.mk { type := "string", format := some "date-time" })
      (hdate fuel env cache) rfl
    unfold genFields
    rw [hstep]
    exact congrArg (fun z => genFieldsGo (fun c ty => mapTypeToSchema fuel env c ty) rest cache z)
      (applyDecorators_nil (withProp s nm (Sch.mk { type := "string", format := some "date-time" })) nm)

/-- Witness for C5 at depth 3, an `IsDate` annotation on the concrete
schema `sC5`, and a concrete `Date`-typed field. -/
theorem c5_date_maps_to_datetime_witness :
    mapTypeToSchema 3 [] [] "Date" = .ok { type := "string", format := some "date-time" } [] ∧
    assocGet (applyDecorators [{ name := "IsDate", arguments := [] }] sC5 "createdAt").f.properties
        "createdAt" = some (Sch.mk { type := "string", format := some "date-time" }) ∧
    genFields 1 [] [{ name := "createdAt", type := "Date", decorators := [] }] [] sC5 =
      genFields 1 [] [] []
        (withProp sC5 "createdAt" (Sch.mk { type := "string", format := some "date-time" })) :=
  ⟨c5_date_maps_to_datetime.1 3 [] [],
   c5_date_maps_to_datetime.2.1 sC5 "createdAt" [] (Sch.mk { type := "string" }) rfl (by decide),
   c5_date_maps_to_datetime.2.2 1 [] "createdAt" [] [] sC5⟩

/-- C3: a field whose declared type is neither an array form nor a
primitive and is not found by `findClassByName` does not abort
compilation: the thrown lookup error is caught inside `mapTypeToSchema`
and the field degrades to `{type: "object"}` with no nested schema and
no cache change; the property is recorded under the field's name, and
the rest of the class compiles exactly as it would have without this
field — same final cache, same `required` list, and the same schema
fragment for every other property name. -/
theorem c3_unresolvable_reference_degrades (k : Nat) (env : List ClassDecl) (cache : Cache)
    (f : PropertyInfo) (rest : List PropertyInfo) (s s' : Sch) (c' : Cache)
    (harr : strEndsWith f.type "[]" = false)
    (hprim : strToLower f.type ∉ (["string", "number", "boolean", "date", "buffer", "uint8array"] : List String))
    (hfind : findClassByName env f.type = none)
    (hcache : assocGet cache f.type = none)
    (hdec : f.decorators = [])
    (hname : ∀ q ∈ rest, q.name ≠ f.name)
    (hok : genFields (k + 1) env (f :: rest) cache s = .ok s' c') :
    mapTypeToSchema (k + 1) env cache f.type =
      .ok { type := jpObject.value, nestedSchema := none } cache ∧
    assocGet s'.f.properties f.name = some (Sch.mk { type := jpObject.value }) ∧
    ∃ s2, genFields (k + 1) env rest cache s = .ok s2 c' ∧
      s2.f.required = s'.f.required ∧
      ∀ y, y ≠ f.name → assocGet s2.f.properties y = assocGet s'.f.properties y := by
  have hmap := mapTypeToSchema_unresolved k env cache f.type harr hprim hfind hcache
  have hstep := genFieldsGo_cons_ok (fun c ty => mapTypeToSchema (k + 1) env c ty)
    f rest cache cache s { type := jpObject.value } (Sch.mk { type := jpObject.value })
    hmap rfl
  unfold genFields at hok
  rw [hstep, hdec, applyDecorators_nil] at hok
  refine ⟨hmap, ?_, ?_⟩
  · rw [genFieldsGo_get_notin _ rest cache _ s' c' hok f.name hname, withProp_get_self]
  · have hagree := genFieldsGo_agreeX (fun c ty => mapTypeToSchema (k + 1) env c ty)
      f.name rest hname cache (withProp s f.name (Sch.mk { type := jpObject.value })) s
      (agreeX_withProp_self f.name s (Sch.mk { type := jpObject.value }))
    rw [hok] at hagree
    cases hB : genFieldsGo (fun c ty => mapTypeToSchema (k + 1) env c ty) rest cache s with
    | ok s2 c2 =>
      rw [hB] at hagree
      obtain ⟨hc2, hreq, hprops⟩ := hagree
      subst hc2
      refine ⟨s2, ?_, hreq.symm, fun y hy => (hprops y hy).symm⟩
      show genFieldsGo (fun c ty => mapTypeToSchema (k + 1) env c ty) rest cache s = .ok s2 c'
      exact hB
    | err c2 =>
      rw [hB] at hagree
      exact False.elim hagree
    | diverge =>
      rw [hB] at hagree
      exact False.elim hagree

/-- Witness for C3: the `owner: Missing` field of a two-field class
degrades to an object stub while the sibling `name` field still
compiles (and is still marked required). -/
theorem c3_unresolvable_reference_degrades_witness :
    mapTypeToSchema 1 [] [] "Missing" = .ok { type := "object", nestedSchema := none } [] ∧
    assocGet (Sch.mk
      { type := "object",
        properties := [("owner", Sch.mk { type := "object" }), ("name", Sch.mk { type := "string" })],
        required := ["name"] }).f.properties "owner" = some (Sch.mk { type := "object" }) ∧
    ∃ s2, genFields 1 []
        [{ name := "name", type := "string",
           decorators := [{ name := "IsNotEmpty", arguments := [] }] }] [] (Sch.mk { type := "object" }) =
        .ok s2 [] ∧
      s2.f.required = (Sch.mk
        { type := "object",
          properties := [("owner", Sch.mk { type := "object" }), ("name", Sch.mk { type := "string" })],
          required := ["name"] }).f.required ∧
      ∀ y, y ≠ "owner" →
        assocGet s2.f.properties y = assocGet (Sch.mk
          { type := "object",
            properties := [("owner", Sch.mk { type := "object" }), ("name", Sch.mk { type := "string" })],
            required := ["name"] }).f.properties y :=
  c3_unresolvable_reference_degrades 0 [] []
    { name := "owner", type := "Missing", decorators := [] }
    [{ name := "name", type := "string", decorators := [{ name := "IsNotEmpty", arguments := [] }] }]
    (Sch.mk { type := "object" })
    (Sch.mk
      { type := "object",
        properties := [("owner", Sch.mk { type := "object" }), ("name", Sch.mk { type := "string" })],
        required := ["name"] })
    [] rfl (by decide) rfl rfl rfl (by decide) rfl

/-- Counterexample refuting C6 as stated: the element type `any`
carries no element-type information and the field has no per-element
annotation, yet the compiled items schema is `{type: "object"}` — not
the `{type: "string"}` the spec promises.  When the element type
resolves to nothing, `mapTypeToSchema`'s default branch recovers the
ELEMENT to `{type: "object"}`, and the array branch copies that
`elementSchema.type` into `items`; no items-default-to-string path
exists anywhere in the kept code. -/
theorem c6_items_default_counterexample :
    mapTypeToSchema 1 [] [] "any[]" =
      .ok { type := "array",
            nestedSchema := some (Sch.mk { type := "array", items := some (Sch.mk { type := "object" }) }) } [] ∧
    (Sch.mk { type := "object" } : Sch) ≠ Sch.mk { type := "string" } := by
  refine ⟨rfl, ?_⟩
  intro h
  injection h with h1
  injection h1 with ht
  exact absurd ht (by decide)

theorem mapGo_array_ok (tbn : Cache → String → TRes TResult) (k : Nat) (cache c2 : Cache)
    (ty : String) (es : MapResult) (it : Sch)
    (harr : strEndsWith ty "[]" = true)
    (h : mapGo tbn k cache (strDropRight2 ty) = .ok es c2)
    (hit : (match es.format with
            | some fm => Sch.mk { (match es.nestedSchema with
                | some ns => ns
                | none => Sch.mk { type := es.type }).f with format := some fm }
            | none => (match es.nestedSchema with
                | some ns => ns
                | none => Sch.mk { type := es.type })) = it) :
    mapGo tbn (k + 1) cache ty =
      .ok { type := "array",
            nestedSchema := some (Sch.mk { type := "array", items := some it }) } c2 := by
  subst hit
  unfold mapGo
  rw [if_pos harr, h]

/-- C6 (amended): for an array field whose element type carries no
type information — it is not itself an array form, not a primitive,
and resolves to no class — and that has no per-element annotation, the
compiled items schema is exactly `{type: "object"}` (the element's
degraded object stub), stated both for the `mapTypeToSchema` array
branch and for the whole field pipeline of `generateSchema`.  This
replaces the spec's `{type: "string"}` default, which the code does
not implement. -/
theorem c6_items_default_to_object :
    (∀ (tbn : Cache → String → TRes TResult) (k : Nat) (cache : Cache) (ty : String),
      strEndsWith ty "[]" = true →
      strEndsWith (strDropRight2 ty) "[]" = false →
      strToLower (strDropRight2 ty) ∉ (["string", "number", "boolean", "date", "buffer", "uint8array"] : List String) →
      tbn cache (strDropRight2 ty) = .err cache →
      mapGo tbn (k + 2) cache ty =
        .ok { type := "array",
              nestedSchema := some (Sch.mk { type := "array", items := some (Sch.mk { type := jpObject.value }) }) } cache) ∧
    (∀ (g k : Nat) (env : List ClassDecl) (cache : Cache) (nm ty : String)
        (rest : List PropertyInfo) (s : Sch),
      strEndsWith ty "[]" = true →
      ty.data.length = k + 1 →
      strEndsWith (strDropRight2 ty) "[]" = false →
      strToLower (strDropRight2 ty) ∉ (["string", "number", "boolean", "date", "buffer", "uint8array"] : List String) →
      findClassByName env (strDropRight2 ty) = none →
      assocGet cache (strDropRight2 ty) = none →
      genFields (g + 1) env ({ name := nm, type := ty, decorators := [] } :: rest) cache s =
        genFields (g + 1) env rest cache
          (withProp s nm (Sch.mk { type := "array", items := some (Sch.mk { type := jpObject.value }) }))) := by
  constructor
  · intro tbn k cache ty harr helemarr helemprim htbn
    exact mapGo_array_ok tbn (k + 1) cache cache ty { type := jpObject.value }
      (Sch.mk { type := jpObject.value }) harr
      (mapGo_unresolved tbn k cache (strDropRight2 ty) helemarr helemprim htbn) rfl
  · intro g k env cache nm ty rest s harr hlen helemarr helemprim hfind hcache
    have htbn : transformByName (g + 1) env cache (strDropRight2 ty) = .err cache :=
      transformByName_notfound g env cache _ hcache hfind
    have hinner := mapGo_unresolved (fun c2 n2 => transformByName (g + 1) env c2 n2)
      k cache (strDropRight2 ty) helemarr helemprim htbn
    have harrok := mapGo_array_ok (fun c2 n2 => transformByName (g + 1) env c2 n2)
      (k + 1) cache cache ty { type := jpObject.value } (Sch.mk { type := jpObject.value })
      harr hinner rfl
    have hmts : mapTypeToSchema (g + 1) env cache ty =
        .ok { type := "array",
              nestedSchema := some (Sch.mk { type := "array", items := some (Sch.mk { type := jpObject.value }) }) } cache := by
      unfold mapTypeToSchema
      rw [hlen]
      exact harrok
    have hstep := genFieldsGo_cons_ok (fun c ty2 => mapTypeToSchema (g + 1) env c ty2)
      { name := nm, type := ty, decorators := [] } rest cache cache s
      { type := "array",
        nestedSchema := some (Sch.mk { type := "array", items := some (Sch.mk { type := jpObject.value }) }) }
      (Sch.mk { type := "array", items := some (Sch.mk { type := jpObject.value }) })
      hmts rfl
    unfold genFields
    rw [hstep]
    exact congrArg
      (fun z => genFieldsGo (fun c ty2 => mapTypeToSchema (g + 1) env c ty2) rest cache z)
      (applyDecorators_nil
        (withProp s nm (Sch.mk { type := "array", items := some (Sch.mk { type := jpObject.value }) })) nm)

/-- Witness for the amended C6 on the concrete field `tags: any[]`. -/
theorem c6_items_default_to_object_witness :
    mapGo (fun c _ => TRes.err c) 6 [] "any[]" =
      .ok { type := "array",
            nestedSchema := some (Sch.mk { type := "array", items := some (Sch.mk { type := jpObject.value }) }) } [] ∧
    genFields 1 [] [{ name := "tags", type := "any[]", decorators := [] }] []
        (Sch.mk { type := "object" }) =
      genFields 1 [] [] []
        (withProp (Sch.mk { type := "object" })
          "tags" (Sch.mk { type := "array", items := some (Sch.mk { type := jpObject.value }) })) :=
  ⟨c6_items_default_to_object.1 (fun c _ => TRes.err c) 4 [] "any[]" rfl rfl (by decide) rfl,
   c6_items_default_to_object.2 0 4 [] [] "tags" "any[]" []
     (Sch.mk { type := "object" }) rfl rfl rfl (by decide) rfl rfl⟩

/-- Counterexample refuting the `minItems` half of C7 as stated: a
field carrying `ArrayNotEmpty` followed by `ArrayMinSize(2)` compiles
to `minItems = 2`, not the promised `minItems = 1` — the decorator
loop applies the switch in declaration order and `ArrayMinSize`
unconditionally overwrites the `minItems: 1` that `ArrayNotEmpty` had
set. -/
theorem c7_minitems_overwritten_counterexample :
    generateSchema 1 []
      [{ name := "tags", type := "string[]",
         decorators := [{ name := "ArrayNotEmpty", arguments := [] },
           { name := "ArrayMinSize", arguments := [2] }] }] [] =
      .ok (Sch.mk
        { type := "object",
          properties := [("tags", Sch.mk
            { type := "array", minItems := some 2,
              items := some (Sch.mk { type := "string" }) })],
          required := ["tags"] }) [] ∧
    (some 2 : Option Int) ≠ some 1 :=
  ⟨rfl, by decide⟩

/-- C7 (amended): in a class whose field names are pairwise distinct,
a field carrying `IsNotEmpty` ends up EXACTLY once in the generated
schema's `required` list whatever other annotations it carries (the
push is guarded by `includes`, and every field contributes its own
name only); and a field carrying `ArrayNotEmpty` is added to
`required` and — PROVIDED no `ArrayMinSize` annotation sits on the
same field, a proviso the spec omits and the counterexample above
shows is necessary — its compiled property schema has `minItems = 1`. -/
theorem c7_required_once_and_minitems (fuel : Nat) (env : List ClassDecl) (cache : Cache)
    (fields : List PropertyInfo) (f : PropertyInfo) (s' : Sch) (c' : Cache)
    (hnodup : (fields.map PropertyInfo.name).Nodup)
    (hmem : f ∈ fields)
    (hok : generateSchema fuel env fields cache = .ok s' c') :
    ((∃ d ∈ f.decorators, d.name = vdIsNotEmpty.name) →
      s'.f.required.count f.name = 1) ∧
    ((∃ d ∈ f.decorators, d.name = vdArrayNotEmpty.name) →
      (∀ d ∈ f.decorators, d.name ≠ vdArrayMinSize.name) →
      f.name ∈ s'.f.required ∧
      ∃ x, assocGet s'.f.properties f.name = some x ∧ x.f.minItems = some 1) := by
  unfold generateSchema generateSchemaGo at hok
  constructor
  · rintro ⟨d, hd, hdn⟩
    exact List.count_eq_one_of_mem
      (genFieldsGo_required_nodup _ fields cache _ s' c' hok List.nodup_nil)
      (genFieldsGo_mem_of_push _ fields cache _ s' c' hok f hmem d hd (Or.inl hdn))
  · rintro ⟨dane, hdane, hdn⟩ hnomin
    refine ⟨genFieldsGo_mem_of_push _ fields cache _ s' c' hok f hmem dane hdane (Or.inr hdn), ?_⟩
    obtain ⟨pre, post, rfl⟩ := List.append_of_mem hmem
    have hfpost : ∀ q ∈ post, q.name ≠ f.name := by
      rw [List.map_append, List.map_cons] at hnodup
      have h2 := (List.nodup_append.mp hnodup).2.1
      have h3 := (List.nodup_cons.mp h2).1
      intro q hq he
      exact h3 (he ▸ List.mem_map_of_mem PropertyInfo.name hq)
    rw [genFieldsGo_append] at hok
    cases hpre : genFieldsGo (fun c ty => mapTypeToSchema fuel env c ty) pre cache
        (Sch.mk { type := "object" }) with
    | ok s1 c1 =>
      rw [hpre] at hok
      have hok1 : genFieldsGo (fun c ty => mapTypeToSchema fuel env c ty) (f :: post) c1 s1 =
          .ok s' c' := hok
      rw [genFieldsGo] at hok1
      cases hm : mapTypeToSchema fuel env c1 f.type with
      | ok m c2 =>
        rw [hm] at hok1
        have hok2 : genFieldsGo (fun c ty => mapTypeToSchema fuel env c ty) post c2
            (applyDecorators f.decorators
              (withProp s1 f.name
                (match m.nestedSchema with
                 | some ns => ns
                 | none => Sch.mk { type := m.type, format := m.format })) f.name) =
            .ok s' c' := hok1
        generalize hB : (match m.nestedSchema with
          | some ns => ns
          | none => Sch.mk { type := m.type, format := m.format }) = B at hok2
        have hgetb : assocGet (withProp s1 f.name B).f.properties f.name = some B :=
          withProp_get_self s1 f.name B
        have happ : applyDecorators f.decorators (withProp s1 f.name B) f.name =
            applyList (decide (B.f.type = jpArray.value)) f.name f.decorators
              (withProp s1 f.name B) := by
          unfold applyDecorators
          rw [hgetb]
        rw [happ] at hok2
        have hmi := applyList_minItemsOne (decide (B.f.type = jpArray.value)) f.name
          dane hdn f.decorators (withProp s1 f.name B) hdane hnomin (by rw [hgetb]; rfl)
        obtain ⟨x, hx, hxmin⟩ := hmi
        have hget := genFieldsGo_get_notin _ post c2 _ s' c' hok2 f.name hfpost
        refine ⟨x, ?_, hxmin⟩
        rw [hget]
        exact hx
      | err c2 => rw [hm] at hok1; cases hok1
      | diverge => rw [hm] at hok1; cases hok1
    | err c1 => rw [hpre] at hok; cases hok
    | diverge => rw [hpre] at hok; cases hok

/-- The schema compiled from the single field `tags: string[]`
annotated `IsNotEmpty` and `ArrayNotEmpty`, used to witness C7. -/
def sC7 : Sch :=
  Sch.mk
    { type := "object",
      properties := [("tags", Sch.mk
        { type := "array", minItems := some 1,
          items := some (Sch.mk { type := "string" }) })],
      required := ["tags"] }

/-- Witness for the amended C7 on a concrete one-field class carrying
both `IsNotEmpty` and `ArrayNotEmpty`. -/
theorem c7_required_once_and_minitems_witness :
    sC7.f.required.count "tags" = 1 ∧
    "tags" ∈ sC7.f.required ∧
    ∃ x, assocGet sC7.f.properties "tags" = some x ∧ x.f.minItems = some 1 :=
  have h := c7_required_once_and_minitems 1 [] []
    [{ name := "tags", type := "string[]",
       decorators := [{ name := "IsNotEmpty", arguments := [] },
         { name := "ArrayNotEmpty", arguments := [] }] }]
    { name := "tags", type := "string[]",
      decorators := [{ name := "IsNotEmpty", arguments := [] },
        { name := "ArrayNotEmpty", arguments := [] }] }
    sC7 [] (by decide) (List.mem_cons_self _ _) rfl
  ⟨h.1 ⟨{ name := "IsNotEmpty", arguments := [] }, List.mem_cons_self _ _, rfl⟩,
   (h.2 ⟨{ name := "ArrayNotEmpty", arguments := [] },
     List.mem_cons_of_mem _ (List.mem_cons_self _ _), rfl⟩ (by decide)).1,
   (h.2 ⟨{ name := "ArrayNotEmpty", arguments := [] },
     List.mem_cons_of_mem _ (List.mem_cons_self _ _), rfl⟩ (by decide)).2⟩
